import Mathlib

/-!
Verification development for the cross-dataset record-matching engine of the
veetility repository (`src/veetility/utility_functions.py`).

The Python functions `prepare_string_matching`, `best_fuzzy_match`,
`identify_match_multi_cols` and `match_ads` of class `UtilityFunctions` are
embedded shallowly below.  Dataframes are embedded as a list of column names
together with positionally aligned rows of scalar values; pandas/NumPy scalar
semantics (elementwise `==`, `pd.isna`, `Series.unique`, `Series.map`,
`nunique`) are modelled on that scalar type.  Fallible Python operations
(`KeyError` on a missing column, `ValueError` from `max()` on an empty
sequence, `TypeError` from scoring a non-string) are modelled with `Except`.
The similarity scorer `fuzzywuzzy.fuzz.ratio` is an external dependency of the
repository and is kept abstract as a `String → String → Nat` parameter: none
of the verified properties depend on its values, only on how the engine uses
them.
-/

namespace Veetility

/-- A scalar cell value of a dataframe: a string, an integer, a boolean, or a
missing value (`None` / `np.nan`, both rendered as `vnull`). -/
inductive Value where
  | vstr  : String → Value
  | vint  : Int → Value
  | vbool : Bool → Value
  | vnull : Value
deriving DecidableEq, Repr

namespace Value

/-- Elementwise pandas/Python equality `==` between two scalar values: a
missing value compares unequal to everything (`nan == nan` is false), strings
compare by contents, and Python's numeric equality `True == 1` is honoured. -/
def pyEq : Value → Value → Bool
  | vstr a,  vstr b  => a = b
  | vint a,  vint b  => a = b
  | vbool a, vbool b => a = b
  | vint a,  vbool b => a = (if b then 1 else 0)
  | vbool a, vint b  => (if a then 1 else 0) = b
  | _,       _       => false

/-- The test `pd.isna` on a scalar. -/
def isna : Value → Bool
  | vnull => true
  | _     => false

/-- Python's `x in container` membership test for one element: an identity
check followed by `==`.  The identity check makes `np.nan in [np.nan]` true
(NumPy's `nan` is a singleton object), which `pyEq` alone would miss. -/
def pyEqOrIs : Value → Value → Bool
  | vnull, vnull => true
  | a,     b     => pyEq a b

/-- Python's `x in list`. -/
def pyMem (v : Value) (l : List Value) : Bool :=
  l.any fun e => pyEqOrIs v e

end Value

open Value

/-- An insertion-ordered Python `dict` with `Value` keys and values, embedded
as an association list: updating an existing key overwrites in place, a fresh
key is appended at the end (Python 3.7+ dict order). -/
def Assoc : Type := List (Value × Value)

instance : DecidableEq Assoc := inferInstanceAs (DecidableEq (List (Value × Value)))

instance : Append Assoc := inferInstanceAs (Append (List (Value × Value)))

/-- Dictionary lookup, using Python's key equality (identity-or-`==`). -/
def assocFind : Assoc → Value → Option Value
  | [],          _ => none
  | (k, v) :: t, x => if pyEqOrIs k x then some v else assocFind t x

/-- Dictionary store `d[k] = v`: overwrite the first entry with an equal key
in place, otherwise append the new entry. -/
def assocInsert : Assoc → Value → Value → Assoc
  | [],          k, v => [(k, v)]
  | (a, b) :: t, k, v => if pyEqOrIs a k then (a, v) :: t else (a, b) :: assocInsert t k v

/-- Keys of a dictionary, in insertion order (`dict.keys()`). -/
def assocKeys (d : Assoc) : List Value := d.map Prod.fst

/-! ### StringNormalizer: `prepare_string_matching` (utility_functions.py lines 73-108)

The Python body, for a non-null input, is the composition
`str(x).lower()`, then either `split('?')[0]` (`is_url=True`) or
`s + ' '` followed by `re.sub(r'(https?://\S+)\s', '', s)` (`is_url=False`),
then `emoji_pattern.sub('', s)`, `unidecode(s)`, `re.sub(r'[^\w\s]', '', s)`
and finally `s.replace(' ', '')`.  Each stage is embedded below on
`List Char`. -/

/-- Membership of a character in Python's `\s` class, restricted to the ASCII
whitespace characters (space, tab, newline, carriage return, vertical tab,
form feed); the development only exercises these. -/
def isPySpace (c : Char) : Bool :=
  c.toNat = 32 || c.toNat = 9 || c.toNat = 10 || c.toNat = 13 || c.toNat = 11 || c.toNat = 12

/-- Membership of a character in Python's `\w` class on the ASCII range
(letters, digits, underscore).  In the normalization pipeline this test only
ever runs after `unidecode`, whose output is pure ASCII, so the ASCII
restriction is exact there. -/
def isPyWord (c : Char) : Bool :=
  (48 ≤ c.toNat && c.toNat ≤ 57) || (65 ≤ c.toNat && c.toNat ≤ 90) ||
    (97 ≤ c.toNat && c.toNat ≤ 122) || c = '_'

/-- Python `str.lower` character by character on the ASCII range.  The
characters exercised by this development have no case mappings outside
ASCII. -/
def pyLowerChar (c : Char) : Char :=
  if 65 ≤ c.toNat && c.toNat ≤ 90 then Char.ofNat (c.toNat + 32) else c

/-- The module-level `emoji_pattern` of utility_functions.py: a character
class of four Unicode ranges (emoticons, symbols and pictographs, transport
and map symbols, flags); `emoji_pattern.sub('', s)` deletes exactly the
characters in these ranges. -/
def isEmojiChar (c : Char) : Bool :=
  (0x1F600 ≤ c.toNat && c.toNat ≤ 0x1F64F) ||
    (0x1F300 ≤ c.toNat && c.toNat ≤ 0x1F5FF) ||
    (0x1F680 ≤ c.toNat && c.toNat ≤ 0x1F6FF) ||
    (0x1F1E0 ≤ c.toNat && c.toNat ≤ 0x1F1FF)

/-- Modelled from the `unidecode` library the source calls (an external
dependency, not repository code): ASCII characters pass through unchanged and
each non-ASCII character is replaced by the ASCII transliteration recorded in
the library's tables.  Only the transliterations this development exercises
are included: `é → "e"` and the library's README example `北 → "Bei "`
(CJK characters transliterate to a capitalised pinyin syllable followed by a
space); other unmapped characters are dropped, as the library does for
characters without a table entry. -/
def unidecodeChar (c : Char) : List Char :=
  if c.toNat ≤ 127 then [c]
  else if c = 'é' then ['e']
  else if c = '北' then ['B', 'e', 'i', ' ']
  else []

/-- Length of the maximal run of non-whitespace characters at the head of the
list (the extent of a greedy `\S+` match). -/
def nonSpaceRun : List Char → Nat
  | []      => 0
  | c :: cs => if isPySpace c then 0 else nonSpaceRun cs + 1

/-- Attempt to match the regex `(https?://\S+)\s` at the head of the list.
A match requires the literal `https://` or `http://`, at least one further
non-whitespace character (the `\S+`), and then one whitespace character; the
returned length covers the URL and that single whitespace character.  Greedy
matching with backtracking collapses to this: `\S+` must take the whole
non-space run, since every shorter split leaves a non-space character for
`\s`. -/
def urlMatchLen (l : List Char) : Option Nat :=
  if l.take 8 = "https://".data then
    if 8 < nonSpaceRun l ∧ nonSpaceRun l < l.length then some (nonSpaceRun l + 1) else none
  else if l.take 7 = "http://".data then
    if 7 < nonSpaceRun l ∧ nonSpaceRun l < l.length then some (nonSpaceRun l + 1) else none
  else none

/-- The scan of `re.sub(r'(https?://\S+)\s', '', s)`: at each position
either remove a leftmost match whole (the URL plus one whitespace character,
at least nine characters) and continue after it, or keep the character and
move on.  The `fuel` argument only bounds the recursion structurally; every
step consumes at least one character, so `stripUrls` passes the list's
length and the `fuel = 0` case is never reached. -/
def stripUrlsGo : Nat → List Char → List Char
  | 0,        l  => l
  | _ + 1,    [] => []
  | fuel + 1, c :: cs =>
    match urlMatchLen (c :: cs) with
    | some n => stripUrlsGo fuel ((c :: cs).drop n)
    | none   => c :: stripUrlsGo fuel cs

/-- The substitution `re.sub(r'(https?://\S+)\s', '', s)`: remove every
leftmost, non-overlapping match, scanning left to right. -/
def stripUrls (l : List Char) : List Char := stripUrlsGo l.length l

/-- StringNormalizer, `UtilityFunctions.prepare_string_matching` on a
(non-null) string input, embedded stage for stage from the source.  Null
inputs pass through the `pd.isna` guard unchanged in the source and are
handled at the `Value` level by `prepareValue`. -/
def prepare_string_matching (s : String) (is_url : Bool) : String :=
  let l := s.data.map pyLowerChar
  let l := if is_url then l.takeWhile (fun c => c ≠ '?')
           else stripUrls (l ++ [' '])
  let l := l.filter (fun c => ! isEmojiChar c)
  let l := l.flatMap unidecodeChar
  let l := l.filter (fun c => isPyWord c || isPySpace c)
  ⟨l.filter (fun c => c ≠ ' ')⟩

/-- `prepare_string_matching` lifted to dataframe cells, as used by the
`.apply(lambda x: self.prepare_string_matching(x, ...))` calls of
`match_ads`: a null cell passes through the `pd.isna` guard unchanged, any
other scalar is stringified by `str(x)` and normalized. -/
def prepareValue (is_url : Bool) : Value → Value
  | vnull   => vnull
  | vstr s  => vstr (prepare_string_matching s is_url)
  | vint n  => vstr (prepare_string_matching (toString n) is_url)
  | vbool b => vstr (prepare_string_matching (if b then "True" else "False") is_url)

/-! ### Observable work and failure: the `EW` monad

Python raising an exception is modelled with `Except String`; in addition the
embedding keeps an event trace recording the units of matching work the code
performs (pairwise similarity scorings and per-row membership scans), so that
"work performed before an error was raised" is an observable of the model.
The trace accumulated before an exception is preserved alongside the
error. -/

/-- One unit of observable matching work. -/
inductive MatchEvent where
  /-- One completed call `fuzz.ratio(string_1, string_2)` inside
  `best_fuzzy_match`. -/
  | score : Value → Value → MatchEvent
  /-- One evaluation of `is_row_in_dataframe` for one row inside
  `identify_match_multi_cols`. -/
  | rowScan : MatchEvent
deriving DecidableEq, Repr

/-- Result of running an embedded Python computation: the work trace together
with either a value or the raised exception's message. -/
def EW (α : Type) : Type := List MatchEvent × Except String α

instance {ε α : Type} [DecidableEq ε] [DecidableEq α] : DecidableEq (Except ε α) := fun a b =>
  match a, b with
  | Except.ok x, Except.ok y =>
    if h : x = y then Decidable.isTrue (by rw [h])
    else Decidable.isFalse (by intro hc; injection hc; contradiction)
  | Except.error x, Except.error y =>
    if h : x = y then Decidable.isTrue (by rw [h])
    else Decidable.isFalse (by intro hc; injection hc; contradiction)
  | Except.ok _, Except.error _ => Decidable.isFalse (by intro hc; cases hc)
  | Except.error _, Except.ok _ => Decidable.isFalse (by intro hc; cases hc)

instance {α : Type} [DecidableEq α] : DecidableEq (EW α) :=
  inferInstanceAs (DecidableEq (List MatchEvent × Except String α))

/-- Return a value, performing no work. -/
def EW.pure {α : Type} (a : α) : EW α := ([], Except.ok a)

/-- Sequence two computations; an exception short-circuits but keeps the
trace accumulated so far. -/
def EW.bind {α β : Type} : EW α → (α → EW β) → EW β
  | (log, Except.error e), _ => (log, Except.error e)
  | (log, Except.ok a),    f => (log ++ (f a).1, (f a).2)

instance : Monad EW where
  pure := EW.pure
  bind := EW.bind

/-- Raise an exception. -/
def EW.throw {α : Type} (e : String) : EW α := ([], Except.error e)

/-- Record one unit of work. -/
def EW.emit (ev : MatchEvent) : EW Unit := ([ev], Except.ok ())

/-! ### SimilarityCache and FuzzyMatcher: `best_fuzzy_match`
(utility_functions.py lines 265-345)

The persisted store is the directory of `best_match_dict_<name>.json` files,
embedded as a name-keyed list of dictionaries.  `read_json`/`write_json`
round a dictionary through one whole-file JSON document, so loading yields
the last saved dictionary and saving overwrites it (`LOG_DIR` path plumbing
is environmental and not modelled).  The scorer `fuzz.ratio` of the external
`fuzzywuzzy` package stays an abstract parameter; calling it on a non-string
raises `TypeError`, which the embedding reproduces. -/

/-- The persisted cache directory: at most one stored dictionary per
`json_name`. -/
def Store : Type := List (String × Assoc)

instance : DecidableEq Store := inferInstanceAs (DecidableEq (List (String × Assoc)))

/-- Look up the stored dictionary for a name (`os.path.exists` plus
`read_json`). -/
def storeFind : Store → String → Option Assoc
  | [],          _ => none
  | (n, d) :: t, x => if n = x then some d else storeFind t x

/-- Persist a dictionary under a name, overwriting any previous file
(`write_json`). -/
def storeInsert : Store → String → Assoc → Store
  | [],          x, d => [(x, d)]
  | (n, e) :: t, x, d => if n = x then (n, d) :: t else (n, e) :: storeInsert t x d

/-- A temporary score dictionary `temp_match_dict` (keys are candidate target
strings, values their clamped scores). -/
def TempScores : Type := List (Value × Nat)

/-- Store `temp_match_dict[string_2] = score`. -/
def tempInsert : TempScores → Value → Nat → TempScores
  | [],          k, v => [(k, v)]
  | (a, b) :: t, k, v => if pyEqOrIs a k then (a, v) :: t else (a, b) :: tempInsert t k v

/-- Python `max(temp_match_dict.values())` on a nonempty dictionary. -/
def tempMaxVal : TempScores → Nat
  | []          => 0
  | (_, v) :: t => max v (tempMaxVal t)

/-- Python `max(temp_match_dict.items(), key=lambda k: k[1])` on a nonempty
dictionary: the first entry attaining the maximal value (later entries
replace the current best only when strictly greater). -/
def tempArgMax (best : Value × Nat) : TempScores → Value × Nat
  | []      => best
  | p :: t  => tempArgMax (if best.2 < p.2 then p else best) t

/-- One call `fuzz.ratio(string_1, string_2)` followed by the threshold
clamp: scores strictly below `threshold` are replaced by 0.  A completed call
is one unit of scoring work; a non-string argument raises `TypeError` inside
the library before any score is produced. -/
def scoreOne (ratio : String → String → Nat) (threshold : Nat) (v t : Value) : EW Nat :=
  match v, t with
  | vstr a, vstr b => do
      EW.emit (MatchEvent.score (vstr a) (vstr b))
      let sc := ratio a b
      pure (if sc < threshold then 0 else sc)
  | _, _ => EW.throw "TypeError: fuzz.ratio expects string arguments"

/-- The inner loop `for string_2 in list_2` of `best_fuzzy_match`, building
`temp_match_dict`. -/
def scoreLoop (ratio : String → String → Nat) (threshold : Nat) (v : Value) :
    List Value → TempScores → EW TempScores
  | [],      temp => pure temp
  | t :: ts, temp => do
      let sc ← scoreOne ratio threshold v t
      scoreLoop ratio threshold v ts (tempInsert temp t sc)

/-- The body of `for string_1 in list_1` for a single source value, from the
source in branch order: the empty string maps to the sentinel `'None'`
without searching; a value present in `list_2` maps to itself; a key of the
loaded stored dictionary reuses its cached value; otherwise every target is
scored, an empty target list makes `max()` raise `ValueError`, an all-zero
score row maps to `'None'`, and otherwise the first maximal-score target
wins. -/
def bfmStep (ratio : String → String → Nat) (threshold : Nat) (list_2 : List Value)
    (stored : Assoc) (acc : Assoc) (v : Value) : EW Assoc :=
  if pyEq v (vstr "") then
    pure (assocInsert acc (vstr "") (vstr "None"))
  else if pyMem v list_2 then
    pure (assocInsert acc v v)
  else
    match assocFind stored v with
    | some w => pure (assocInsert acc v w)
    | none => do
        let temp ← scoreLoop ratio threshold v list_2 []
        if temp.isEmpty then
          EW.throw "ValueError: max() arg is an empty sequence"
        else if tempMaxVal temp = 0 then
          pure (assocInsert acc v (vstr "None"))
        else
          match temp with
          | []     => EW.throw "ValueError: max() arg is an empty sequence"
          | p :: t => pure (assocInsert acc v (tempArgMax p t).1)

/-- The loop `for string_1 in list_1` of `best_fuzzy_match`. -/
def bfmLoop (ratio : String → String → Nat) (threshold : Nat) (list_2 : List Value)
    (stored : Assoc) (acc : Assoc) : List Value → EW Assoc
  | []      => pure acc
  | v :: vs => do
      let acc' ← bfmStep ratio threshold list_2 stored acc v
      bfmLoop ratio threshold list_2 stored acc' vs

/-- The dictionary `stored_best_dict` that `best_fuzzy_match` works against:
empty for the `'NoStore'` sentinel or when no file was previously persisted
under the name, otherwise the persisted dictionary. -/
def loadStored (json_name : String) (store : Store) : Assoc :=
  if json_name ≠ "NoStore" then (storeFind store json_name).getD [] else []

/-- FuzzyMatcher, `UtilityFunctions.best_fuzzy_match`: load the stored
dictionary for `json_name` (none when the name is the `'NoStore'` sentinel or
no file exists), process every source value, and persist the full resulting
dictionary unless storage is disabled.  Returns the best-match dictionary and
the updated store. -/
def best_fuzzy_match (ratio : String → String → Nat) (list_1 list_2 : List Value)
    (threshold : Nat) (json_name : String) (store : Store) : EW (Assoc × Store) := do
  let stored : Assoc := loadStored json_name store
  let d ← bfmLoop ratio threshold list_2 stored [] list_1
  let store' := if json_name ≠ "NoStore" then storeInsert store json_name d else store
  pure (d, store')

/-! ### Tabular data: the dataframe model

A pandas dataframe is embedded as its ordered list of column names together
with its rows, each row a list of cell values positionally aligned with the
column list.  Column selection on a missing name models pandas' `KeyError`.
New columns are appended on the right, matching pandas' column order for
`df[name] = values`. -/

/-- A dataframe: ordered column names and positionally aligned rows. -/
structure DataFrame where
  cols : List String
  rows : List (List Value)
deriving DecidableEq, Repr

namespace DataFrame

/-- Column selection `df[name]`, raising `KeyError` on a missing column. -/
def getColumn (df : DataFrame) (name : String) : Except String (List Value) :=
  match df.cols.findIdx? (fun c => c = name) with
  | none   => Except.error ("KeyError: " ++ name)
  | some i => Except.ok (df.rows.map (fun r => r.getD i vnull))

/-- Column assignment `df[name] = values`: overwrite an existing column in
place, otherwise append the new column on the right.  `values` is positionally
aligned with the rows. -/
def setCol (df : DataFrame) (name : String) (vals : List Value) : DataFrame :=
  match df.cols.findIdx? (fun c => c = name) with
  | some i => ⟨df.cols, (df.rows.zip vals).map (fun rv => rv.1.set i rv.2)⟩
  | none   => ⟨df.cols ++ [name], (df.rows.zip vals).map (fun rv => rv.1 ++ [rv.2])⟩

/-- The drop `df.drop(columns=[col for col in df.columns if p(col)])`:
remove every column whose name satisfies `p`. -/
def dropColsWhere (p : String → Bool) (df : DataFrame) : DataFrame :=
  ⟨df.cols.filter (fun c => ! p c),
   df.rows.map (fun r => ((df.cols.zip r).filter (fun cv => ! p cv.1)).map Prod.snd)⟩

/-- Row filtering `df[df[name] == b]` on a boolean flag column (pandas
compares each cell with the scalar and keeps the rows where the comparison
holds). -/
def filterByFlag (df : DataFrame) (name : String) (b : Bool) : Except String DataFrame := do
  let col ← df.getColumn name
  pure ⟨df.cols, ((df.rows.zip col).filter (fun rv => pyEq rv.2 (vbool b))).map Prod.fst⟩

/-- Element access `row[c]` on a pandas row `Series` whose index is the
dataframe's column list. -/
def rowGet (rowCols : List String) (row : List Value) (c : String) : Except String Value :=
  match rowCols.findIdx? (fun x => x = c) with
  | none   => Except.error ("KeyError: " ++ c)
  | some i => Except.ok (row.getD i vnull)

end DataFrame

/-- Python list indexing `l[i]`, raising `IndexError` past the end. -/
def pyIndex {α : Type} (l : List α) (i : Nat) : Except String α :=
  match l.get? i with
  | none   => Except.error "IndexError: list index out of range"
  | some a => Except.ok a

/-- `pd.Series.unique().tolist()`: values in order of first appearance, with
a missing value (the `np.nan` singleton) collapsed like any repeated
value. -/
def uniqueVals : List Value → List Value
  | []      => []
  | v :: vs => v :: (uniqueVals vs).filter (fun w => ! pyEqOrIs v w)

/-- `pd.Series.nunique()`: number of distinct non-null values. -/
def nuniqueVals (l : List Value) : Nat :=
  ((uniqueVals l).filter (fun v => ! isna v)).length

/-- `series.map(dict)`: look each cell up in the dictionary, missing keys
becoming `NaN`. -/
def mapViaDict (d : Assoc) (l : List Value) : List Value :=
  l.map (fun v => (assocFind d v).getD vnull)

/-! ### CompositeKeyMatcher: `identify_match_multi_cols`
(utility_functions.py lines 232-264) -/

/-- Monadic `List.mapM` for `EW`, written out for easy unfolding. -/
def ewMapM {α β : Type} (f : α → EW β) : List α → EW (List β)
  | []     => EW.pure []
  | a :: t => do
      let b ← f a
      let bs ← ewMapM f t
      pure (b :: bs)

/-- The loop `for i in range(len(source_cols))` of `is_row_in_dataframe`,
accumulating the boolean mask over the target's rows.  Each pass evaluates,
in the source's order, `target_cols[i]` (list indexing), the target column
selection, and the row element, then conjoins the vectorised condition
`(target == row_value AND row_value not in exclude_values) OR
(target isna AND row_value isna)` into the mask. -/
def maskLoop (excl : List Value) (target : DataFrame) (rowCols : List String)
    (row : List Value) : List String → List String → List Bool → Except String (List Bool)
  | [],        _,    mask => Except.ok mask
  | sc :: scs, tcs,  mask => do
      let tc ← pyIndex tcs 0
      let col ← target.getColumn tc
      let rv ← DataFrame.rowGet rowCols row sc
      let cond := col.map (fun tv => (pyEq tv rv && ! pyMem rv excl) || (isna tv && isna rv))
      maskLoop excl target rowCols row scs (tcs.drop 1) (mask.zipWith and cond)

/-- `is_row_in_dataframe(row, target_df, source_cols, target_cols)`: does
some row of the target satisfy the per-column condition at every position?
One evaluation is one unit of row-scan work. -/
def is_row_in_dataframe (excl : List Value) (target : DataFrame) (rowCols : List String)
    (row : List Value) (srcCols tgtCols : List String) : EW Bool := do
  EW.emit MatchEvent.rowScan
  match maskLoop excl target rowCols row srcCols tgtCols
      (List.replicate target.rows.length true) with
  | Except.error e => EW.throw e
  | Except.ok mask => pure (0 < (mask.filter id).length)

/-- CompositeKeyMatcher, `UtilityFunctions.identify_match_multi_cols`: scan
every row of `df_1` against `df_2` and assign the flag column
`match_col_name + '_df1?'`, then scan every row of `df_2` against the
(already annotated) `df_1` and assign `match_col_name + '_df2?'`.  The
default excluded values are `['None', 'none', 'nan', '']`.  In the source the
flag columns are assigned onto the dataframe objects passed in
(`df_1[...] = ...` mutates in place), so the returned pair is also the state
of the caller's two dataframe objects when the call returns. -/
def identify_match_multi_cols (df_1 df_2 : DataFrame) (df_1_cols_to_match df_2_cols_to_match : List String)
    (match_col_name : String) (exclude_values : Option (List Value)) : EW (DataFrame × DataFrame) := do
  let excl := exclude_values.getD [vstr "None", vstr "none", vstr "nan", vstr ""]
  let flags1 ← ewMapM
    (fun r => is_row_in_dataframe excl df_2 df_1.cols r df_1_cols_to_match df_2_cols_to_match)
    df_1.rows
  let df_1' := df_1.setCol (match_col_name ++ "_df1?") (flags1.map vbool)
  let flags2 ← ewMapM
    (fun r => is_row_in_dataframe excl df_1' df_2.cols r df_2_cols_to_match df_1_cols_to_match)
    df_2.rows
  let df_2' := df_2.setCol (match_col_name ++ "_df2?") (flags2.map vbool)
  pure (df_1', df_2')

/-! ### MatchOrchestrator: `match_ads` (utility_functions.py lines 110-230)

The embedding fixes the flag parameters `extract_shortcode=False` and
`merge=False` (their Python defaults); the shortcode branch and the
`merge_match_perc` left-join enrichment are not exercised by any verified
property.  The dead computation of `df_1_unique_exact`/`df_2_unique_exact`
(only consumed inside the unexercised shortcode branch, and unable to raise
once the `match_string` assignments succeeded) is likewise omitted.  The
diagnostic percentages the source sends to its logger divide by `shape[0]`
with NumPy scalars, producing `nan` rather than raising when a frame is
empty; the embedding renders a `nan` percentage as `none` and omits the
display-only `round(..., 2)`. -/

/-- Run an exceptions-only computation inside `EW` (no work recorded). -/
def liftE {α : Type} (x : Except String α) : EW α := ([], x)

/-- Count `df[col].sum()` over a boolean flag column: the number of `True`
cells. -/
def sumFlags (l : List Value) : Nat :=
  (l.filter (fun v => pyEq v (vbool true))).length

/-- A logged percentage `sum*100/shape[0]`: the dividend `sum*100` and the
divisor `shape[0]` are recorded exactly, and `none` models the NumPy `nan`
produced on a zero denominator.  The Python value is the float quotient of
the pair, shown after a display-only `round(..., 2)`; no verified property
needs the quotient itself. -/
def percOf (num den : Nat) : Option (Nat × Nat) :=
  if den = 0 then none else some (num * 100, den)

/-- The ten structured values behind the diagnostic log lines at the end of
`match_ads` (four distinct-value counts and six match percentages). -/
structure Diagnostics where
  nunique_exact_df1 : Nat
  nunique_fuzzy_df1 : Nat
  nunique_exact_df2 : Nat
  nunique_fuzzy_df2 : Nat
  perc_exact_df1    : Option (Nat × Nat)
  perc_fuzzy_df1    : Option (Nat × Nat)
  perc_exact_df2    : Option (Nat × Nat)
  perc_fuzzy_df2    : Option (Nat × Nat)
  perc_matched_df1  : Option (Nat × Nat)
  perc_matched_df2  : Option (Nat × Nat)
deriving DecidableEq, Repr

/-- `pd.concat([a, b], ignore_index=True)` for frames with identical column
lists, the only shape `match_ads` produces (both halves of the split carry
the same columns); pandas' general column-union alignment is not needed and
not modelled. -/
def concatSameCols (a b : DataFrame) : Except String DataFrame :=
  if a.cols = b.cols then Except.ok ⟨a.cols, a.rows ++ b.rows⟩
  else Except.error "concat: frames with differing columns not modelled"

/-- Column selection through a possibly absent column name (Python's
`df[None]` raises `KeyError: None`, which happens when `df_1_fuzzy_col` is
given but `df_2_fuzzy_col` is left as `None`). -/
def getColumnO (df : DataFrame) : Option String → Except String (List Value)
  | some c => df.getColumn c
  | none   => Except.error "KeyError: None"

/-- Occurrence of a pattern anywhere in a character list (Python's
substring test `pat in s`). -/
def hasSub (p : List Char) : List Char → Bool
  | []     => p.isEmpty
  | c :: t => p.isPrefixOf (c :: t) || hasSub p t

/-- Python's substring containment `pat in s` on strings. -/
def strContains (s pat : String) : Bool := hasSub pat.data s.data

/-- The predicate of the entry drop of `match_ads`: column names containing
both the substring `'matched'` and the substring `'df'`. -/
def isMatchedDfCol (c : String) : Bool :=
  strContains c "matched" && strContains c "df"

/-- The per-row lambda of the final `matched_col_name` assignment:
`True if ((x[exCol] == True) or (x[fzCol] == True)) else False`. -/
def rowMatchedFlag (cols : List String) (exCol fzCol : String) (r : List Value) :
    Except String Value := do
  let a ← DataFrame.rowGet cols r exCol
  let b ← DataFrame.rowGet cols r fzCol
  Except.ok (vbool (pyEq a (vbool true) || pyEq b (vbool true)))

/-- Assign `df[matched_col_name] = df.apply(lambda x: ...)` deriving the
overall matched flag from the exact and fuzzy flag columns. -/
def setMatchedCol (df : DataFrame) (name exCol fzCol : String) : Except String DataFrame := do
  let flags ← df.rows.mapM (rowMatchedFlag df.cols exCol fzCol)
  Except.ok (df.setCol name flags)

/-- The diagnostics block: the values of the ten logger lines, in source
order, each one raising `KeyError` exactly when the source's column access
would. -/
def computeDiagnostics (df_1 df_2 : DataFrame) (e1 : String) (f1 : String) (e2 : String)
    (f2 : Option String) (matched_col_name : String) : Except String Diagnostics := do
  let ce1 ← df_1.getColumn e1
  let cf1 ← df_1.getColumn f1
  let ce2 ← df_2.getColumn e2
  let cf2 ← getColumnO df_2 f2
  let x1 ← df_1.getColumn "matched_exact_df1?"
  let z1 ← df_1.getColumn "matched_fuzzy_df1?"
  let x2 ← df_2.getColumn "matched_exact_df2?"
  let z2 ← df_2.getColumn "matched_fuzzy_df2?"
  let m1 ← df_1.getColumn matched_col_name
  let m2 ← df_2.getColumn matched_col_name
  Except.ok
    { nunique_exact_df1 := nuniqueVals ce1
      nunique_fuzzy_df1 := nuniqueVals cf1
      nunique_exact_df2 := nuniqueVals ce2
      nunique_fuzzy_df2 := nuniqueVals cf2
      perc_exact_df1    := percOf (sumFlags x1) df_1.rows.length
      perc_fuzzy_df1    := percOf (sumFlags z1) df_1.rows.length
      perc_exact_df2    := percOf (sumFlags x2) df_2.rows.length
      perc_fuzzy_df2    := percOf (sumFlags z2) df_2.rows.length
      perc_matched_df1  := percOf (sumFlags m1) df_1.rows.length
      perc_matched_df2  := percOf (sumFlags m2) df_2.rows.length }

/-- MatchOrchestrator, `UtilityFunctions.match_ads` with the default flags
`extract_shortcode=False` and `merge=False`, embedded statement for
statement: entry drop of stale `matched…df…` columns, parameter defaulting,
exact-pass normalization and composite-key match, split into matched and
unmatched subsets, fuzzy-pass normalization, fuzzy dictionary lookup via
`best_fuzzy_match` (threshold 80), fuzzy composite-key match, recombination,
overall matched flags, and diagnostics.  Returns the two annotated frames,
the diagnostics, and the updated cache store.  The caller's two dataframe
objects are rebound to `drop` copies by the first two statements and never
written through again, so the caller's objects still hold their original
values when the call returns. -/
def match_ads (ratio : String → String → Nat) (df_1 df_2 : DataFrame)
    (df_1_exact_col df_2_exact_col : String) (df_1_fuzzy_col df_2_fuzzy_col : Option String)
    (is_exact_col_link : Bool) (matched_col_name : String)
    (cols_to_merge : Option (List String)) (pickle_name : String) (store : Store) :
    EW (DataFrame × DataFrame × Diagnostics × Store) := do
  let df_1 := df_1.dropColsWhere isMatchedDfCol
  let df_2 := df_2.dropColsWhere isMatchedDfCol
  let ctm := cols_to_merge.getD ["platform"]
  let fz : String × Option String :=
    match df_1_fuzzy_col with
    | none    => (df_1_exact_col, some df_2_exact_col)
    | some f1 => (f1, df_2_fuzzy_col)
  let ce1 ← liftE (df_1.getColumn df_1_exact_col)
  let df_1 := df_1.setCol "match_string" (ce1.map (prepareValue is_exact_col_link))
  let ce2 ← liftE (df_2.getColumn df_2_exact_col)
  let df_2 := df_2.setCol "match_string" (ce2.map (prepareValue is_exact_col_link))
  let ctm := ctm ++ ["match_string"]
  let r ← identify_match_multi_cols df_1 df_2 ctm ctm "matched_exact" none
  let df_1 := r.1
  let df_2 := r.2
  let df_1 := df_1.setCol matched_col_name (List.replicate df_1.rows.length (vbool false))
  let df_1 := df_1.setCol "matched_fuzzy_df1?" (List.replicate df_1.rows.length (vbool false))
  let df_1_match ← liftE (df_1.filterByFlag "matched_exact_df1?" true)
  let cf1 ← liftE (df_1.getColumn fz.1)
  let df_1 := df_1.setCol "match_string" (cf1.map (prepareValue false))
  let cf2 ← liftE (getColumnO df_2 fz.2)
  let df_2 := df_2.setCol "match_string" (cf2.map (prepareValue false))
  let df_1_no_match ← liftE (df_1.filterByFlag "matched_exact_df1?" false)
  let nmu ← liftE (df_1_no_match.getColumn "match_string")
  let df_1_no_match_unique := uniqueVals nmu
  let fzu ← liftE (df_2.getColumn "match_string")
  let df_2_fuzzy_unique := uniqueVals fzu
  let bm ← best_fuzzy_match ratio df_1_no_match_unique df_2_fuzzy_unique 80 pickle_name store
  let best_match_dict := bm.1
  let store := bm.2
  let nm ← liftE (df_1_no_match.getColumn "match_string")
  let df_1_no_match := df_1_no_match.setCol "match_string" (mapViaDict best_match_dict nm)
  let r2 ← identify_match_multi_cols df_1_no_match df_2 ctm ctm "matched_fuzzy" none
  let df_1_no_match := r2.1
  let df_2 := r2.2
  let df_1 ← liftE (concatSameCols df_1_match df_1_no_match)
  let df_1 ← liftE (setMatchedCol df_1 matched_col_name "matched_exact_df1?" "matched_fuzzy_df1?")
  let df_2 ← liftE (setMatchedCol df_2 matched_col_name "matched_exact_df2?" "matched_fuzzy_df2?")
  let diag ← liftE (computeDiagnostics df_1 df_2 df_1_exact_col fz.1 df_2_exact_col fz.2
    matched_col_name)
  pure (df_1, df_2, diag, store)

/-! ### Specification-side definitions and modelling of caller-visible state

`specBest` and `specRowHit` below follow the words of the specification, not
the source; the refinement theorems compare them against the embedded code.
The two `…_caller_state` definitions record, per the aliasing analysis of the
Python bodies, what the caller's dataframe objects hold when the call
returns. -/

/-- Modelled from the spec's words (§4.3 steps 4–5): compute a similarity
score between `s` and every string in the target, clamp scores below the
threshold to 0, and select the target string with the maximum score, ties
broken by the first maximum encountered in the target's iteration order; if
every score is 0, the sentinel `"None"`.  `clampScore` is the clamped
score of one source/target pair. -/
def clampScore (ratio : String → String → Nat) (threshold : Nat) (s t : String) : Nat :=
  if ratio s t < threshold then 0 else ratio s t

def specBest (ratio : String → String → Nat) (threshold : Nat) (s : String)
    (target : List String) : Value :=
  let m := (target.map (clampScore ratio threshold s)).foldr max 0
  if m = 0 then vstr "None"
  else
    match target.find? (fun t => clampScore ratio threshold s t = m) with
    | some t => vstr t
    | none   => vstr "None"

/-- Value of a named cell of a row, given the frame's column list (`none` on
a missing column). -/
def lookupVal (cols : List String) (row : List Value) (c : String) : Option Value :=
  (cols.findIdx? (fun x => x = c)).map (fun i => row.getD i vnull)

/-- The default `exclude_values` of `identify_match_multi_cols`. -/
def defaultExcludeValues : List Value :=
  [vstr "None", vstr "none", vstr "nan", vstr ""]

/-- Modelled from the claim's words (spec §4.4), the per-position condition:
`(target value == row value AND row value not in excluded) OR (both are
null)`. -/
def specColHit (excl : List Value) (rv tv : Value) : Bool :=
  (pyEq tv rv && ! pyMem rv excl) || (isna tv && isna rv)

/-- Modelled from the claim's words (spec §4.4), the row-membership
predicate: a target row `t` satisfies the per-position condition at every key
position of the two equal-length column lists (pairing by `zip`). -/
def specRowHit (excl : List Value) (srcFrameCols tgtFrameCols : List String)
    (srcCols tgtCols : List String) (r t : List Value) : Bool :=
  (srcCols.zip tgtCols).all fun p =>
    match lookupVal srcFrameCols r p.1, lookupVal tgtFrameCols t p.2 with
    | some rv, some tv => specColHit excl rv tv
    | _,       _       => false

/-- The state of the caller's two dataframe objects when
`identify_match_multi_cols` returns.  In the source the flag columns are
assigned directly onto the argument frames (`df_1[...] = ...` and
`df_2[...] = ...` mutate the objects in place) and those same objects are
returned, so the caller's objects hold exactly the returned annotated
frames. -/
def identify_caller_state (df_1 df_2 : DataFrame) (cols_1 cols_2 : List String)
    (match_col_name : String) (exclude_values : Option (List Value)) :
    EW (DataFrame × DataFrame) :=
  identify_match_multi_cols df_1 df_2 cols_1 cols_2 match_col_name exclude_values

/-- The state of the caller's two dataframe objects when `match_ads`
returns.  The first two statements of the source rebind the local names
`df_1`/`df_2` to fresh frames returned by `DataFrame.drop` (a non-mutating
copy), and no later statement writes through the caller's references, so the
caller's objects still hold their original values. -/
def match_ads_caller_state (df_1 df_2 : DataFrame) : DataFrame × DataFrame :=
  (df_1, df_2)

/-- A constant similarity scorer used to instantiate the abstract
`fuzz.ratio` parameter in concrete witness computations. -/
def ratioZero : String → String → Nat := fun _ _ => 0

/-- The dictionary value one iteration of the `best_fuzzy_match` loop
assigns for a source value: the branches of `bfmStep`, none of which depends
on the accumulated dictionary.  `bfmStep` is exactly "insert this value
under the source key" (see `bfmStep_eq_insert_val`). -/
def bfmStepVal (ratio : String → String → Nat) (threshold : Nat) (list_2 : List Value)
    (stored : Assoc) (v : Value) : EW Value :=
  if pyEq v (vstr "") then
    EW.pure (vstr "None")
  else if pyMem v list_2 then
    EW.pure v
  else
    match assocFind stored v with
    | some w => EW.pure w
    | none => EW.bind (scoreLoop ratio threshold v list_2 []) fun temp =>
        if temp.isEmpty then
          EW.throw "ValueError: max() arg is an empty sequence"
        else if tempMaxVal temp = 0 then
          EW.pure (vstr "None")
        else
          match temp with
          | []     => EW.throw "ValueError: max() arg is an empty sequence"
          | p :: t => EW.pure (tempArgMax p t).1

/-- First-occurrence accumulation of the distinct elements of a string list
(the key order a Python dict acquires when fed the list's elements left to
right). -/
def foldOcc (d : List String) : List String → List String
  | []     => d
  | a :: t => if a ∈ d then foldOcc d t else foldOcc (d ++ [a]) t

/-! ## Theorems -/

/-- C4 (falsified): normalization is not idempotent.  The source lower-cases
before transliterating, so on input `"北"` `prepare_string_matching` returns
`"Bei"` (the `unidecode` transliteration's capital survives), and a second
application returns `"bei"`, different from the first application's output.
The spec's invariant `normalize(normalize(s)) == normalize(s)` and the
function's own docstring ("converting to lower case") identify this as a
defect of the code. -/
theorem prepare_string_matching_not_idempotent :
    prepare_string_matching "北" false = "Bei" ∧
      prepare_string_matching (prepare_string_matching "北" false) false = "bei" ∧
      prepare_string_matching (prepare_string_matching "北" false) false ≠
        prepare_string_matching "北" false := by
  decide

/-- C9 (falsified): the output of `prepare_string_matching` is not
lower-case in all cases.  On input `"北"` both the URL and the non-URL mode
return `"Bei"`, which contains the upper-case letter `B`, contradicting the
function's own docstring ("converting to lower case"): the `str.lower()`
call runs before `unidecode`, whose transliteration introduces the
capital. -/
theorem prepare_string_matching_uppercase_output :
    prepare_string_matching "北" false = "Bei" ∧
      prepare_string_matching "北" true = "Bei" ∧
      "Bei".data.filter Char.isUpper = ['B'] := by
  decide

/-- C5 (falsified): a matching run over a non-empty dataset A and an empty
dataset B does not complete: once the exact pass leaves a non-empty
normalized string unmatched, `best_fuzzy_match` reaches
`max(temp_match_dict.values())` with an empty dictionary (the target list is
empty) and raises `ValueError`, for every similarity scorer.  The spec
requires 0% diagnostics without raising. -/
theorem match_ads_empty_target_raises :
    ∀ ratio : String → String → Nat,
      (match_ads ratio ⟨["platform", "cap"], [[vstr "fb", vstr "hello"]]⟩
          ⟨["platform", "cap"], []⟩ "cap" "cap" none none true "boosted" none "NoStore"
          []).2 =
        Except.error "ValueError: max() arg is an empty sequence" := by
  intro ratio
  rfl

/-- C1 counterexample: for the non-empty, uncached source string `"ab"` and
an empty target list, every score is (vacuously) 0 and the claim demands the
mapping `"ab" ↦ "None"`, but `best_fuzzy_match` instead raises `ValueError`
from `max()` on the empty score dictionary and returns no mapping at all. -/
theorem best_fuzzy_match_empty_target_raises :
    best_fuzzy_match ratioZero [vstr "ab"] [] 80 "NoStore" [] =
      ([], Except.error "ValueError: max() arg is an empty sequence") := by
  decide

/-- C3 counterexample: the empty string is mapped to the sentinel `"None"`
even when it occurs verbatim in the target list — the `string_1 == ''` check
precedes the exact short-circuit — so a source string in the target is not
always mapped to itself. -/
theorem best_fuzzy_match_empty_string_not_self :
    (best_fuzzy_match ratioZero [vstr ""] [vstr ""] 80 "NoStore" []).2 =
        Except.ok ([(vstr "", vstr "None")], []) ∧
      vstr "None" ≠ vstr "" := by
  decide

/-- C7 counterexample: with the fuzzy column `"fz"` missing from both
datasets but the exact columns present, `match_ads` does not fail before the
matching work: the exact composite-key pass runs (two row-membership scans
appear in the work trace) and only then does the access `df_1["fz"]` raise
`KeyError` — there is no up-front configuration check. -/
theorem match_ads_missing_fuzzy_col_fails_late :
    match_ads ratioZero ⟨["platform", "cap"], [[vstr "fb", vstr "hello"]]⟩
        ⟨["platform", "cap"], [[vstr "fb", vstr "hello"]]⟩ "cap" "cap" (some "fz")
        (some "fz") true "boosted" none "NoStore" [] =
      ([MatchEvent.rowScan, MatchEvent.rowScan], Except.error "KeyError: fz") := by
  decide

/-- C10 counterexample: a caller-supplied column named
`"matched_exact_df1?"` — whose name contains both `'matched'` and `'df'` —
is not absent from the returned dataset: the run drops it at entry but then
recreates a column with that very name, so the returned first frame contains
the name `"matched_exact_df1?"`. -/
theorem match_ads_matched_df_name_reappears :
    ((match_ads ratioZero
            ⟨["platform", "cap", "matched_exact_df1?"],
              [[vstr "fb", vstr "hello", vstr "KEEP"]]⟩
            ⟨["platform", "cap"], [[vstr "fb", vstr "hello"]]⟩ "cap" "cap" none none true
            "boosted" none "NoStore" []).2.map
          (fun o => o.1.cols.contains "matched_exact_df1?")) =
      Except.ok true := by
  decide

/-- C8 counterexample: `identify_match_multi_cols` does not leave the
caller's dataframe objects unchanged.  The flag columns are assigned onto the
argument frames in place, so when the call returns the caller's objects hold
the annotated frames, which differ from the frames that were passed in. -/
theorem identify_mutates_caller_frames :
    (identify_caller_state ⟨["A"], [[vstr "x"]]⟩ ⟨["A"], [[vstr "x"]]⟩ ["A"] ["A"]
          "match" none).2 =
        Except.ok
          (⟨["A", "match_df1?"], [[vstr "x", vbool true]]⟩,
            ⟨["A", "match_df2?"], [[vstr "x", vbool true]]⟩) ∧
      (⟨["A", "match_df1?"], [[vstr "x", vbool true]]⟩ : DataFrame) ≠
        ⟨["A"], [[vstr "x"]]⟩ := by
  decide

theorem EW.monad_bind {α β : Type} (x : EW α) (f : α → EW β) :
    (x >>= f) = EW.bind x f := rfl

theorem EW.monad_pure {α : Type} (a : α) : (pure a : EW α) = ([], Except.ok a) := rfl

theorem EW.bind_err {α β : Type} (log : List MatchEvent) (e : String) (f : α → EW β) :
    EW.bind (log, Except.error e) f = (log, Except.error e) := rfl

theorem EW.bind_ok {α β : Type} (log : List MatchEvent) (a : α) (f : α → EW β) :
    EW.bind (log, Except.ok a) f = (log ++ (f a).1, (f a).2) := rfl

theorem getColumn_missing (df : DataFrame) (c : String) (h : c ∉ df.cols) :
    df.getColumn c = Except.error ("KeyError: " ++ c) := by
  unfold DataFrame.getColumn
  rw [List.findIdx?_eq_none_iff.mpr]
  intro x hx
  simp only [decide_eq_false_iff_not]
  exact fun hc => h (hc ▸ hx)

theorem dropColsWhere_cols_subset (p : String → Bool) (df : DataFrame) (c : String)
    (h : c ∈ (df.dropColsWhere p).cols) : c ∈ df.cols ∧ p c = false := by
  unfold DataFrame.dropColsWhere at h
  simp only [List.mem_filter, Bool.not_eq_true'] at h
  exact h

/-- C7 amended, part confirmed: a missing exact-match column makes
`match_ads` raise a `KeyError` naming the column before any matching work is
performed (the work trace is empty) and return no output. -/
theorem match_ads_missing_exact_col_fails_fast (ratio : String → String → Nat)
    (df_1 df_2 : DataFrame) (e1 e2 : String) (f1 f2 : Option String) (link : Bool)
    (mcol : String) (ctm : Option (List String)) (pname : String) (store : Store)
    (h : e1 ∉ df_1.cols) :
    match_ads ratio df_1 df_2 e1 e2 f1 f2 link mcol ctm pname store =
      ([], Except.error ("KeyError: " ++ e1)) := by
  have hd : e1 ∉ (df_1.dropColsWhere isMatchedDfCol).cols := by
    intro hc
    exact h (dropColsWhere_cols_subset _ _ _ hc).1
  unfold match_ads
  rw [EW.monad_bind]
  rw [getColumn_missing _ _ hd]
  rfl

/-- Witness for the C7 amended theorem at a concrete input: the exact column
`"nosuch"` is missing, and the run fails immediately with an empty work
trace. -/
theorem match_ads_missing_exact_col_fails_fast_witness :
    match_ads ratioZero ⟨["platform", "cap"], [[vstr "fb", vstr "hello"]]⟩
        ⟨["platform", "cap"], [[vstr "fb", vstr "hello"]]⟩ "nosuch" "cap" none none true
        "boosted" none "NoStore" [] =
      ([], Except.error ("KeyError: " ++ "nosuch")) :=
  match_ads_missing_exact_col_fails_fast ratioZero _ _ "nosuch" "cap" none none true
    "boosted" none "NoStore" [] (by decide)

theorem pyEq_vstr_empty {v : Value} (h : pyEq v (vstr "") = true) : v = vstr "" := by
  cases v with
  | vstr s => simp only [pyEq, decide_eq_true_eq] at h; rw [h]
  | vint n => simp [pyEq] at h
  | vbool b => simp [pyEq] at h
  | vnull => simp [pyEq] at h

theorem pyEqOrIs_of_vstr {a : Value} {y : String} (h : pyEqOrIs a (vstr y) = true) :
    a = vstr y := by
  cases a with
  | vstr s => simp only [pyEqOrIs, pyEq, decide_eq_true_eq] at h; rw [h]
  | vint n => simp [pyEqOrIs, pyEq] at h
  | vbool b => simp [pyEqOrIs, pyEq] at h
  | vnull => simp [pyEqOrIs, pyEq] at h

theorem pyEqOrIs_vstr_vstr (a b : String) : pyEqOrIs (vstr a) (vstr b) = decide (a = b) := rfl

theorem pyMem_map_vstr (s : String) (l : List String) :
    pyMem (vstr s) (l.map vstr) = decide (s ∈ l) := by
  induction l with
  | nil => rfl
  | cons a t ih =>
    simp only [pyMem, List.map_cons, List.any_cons] at ih ⊢
    rw [ih, pyEqOrIs_vstr_vstr]
    by_cases h : s = a
    · simp [h]
    · simp [h]

theorem assocFind_insert_self_vstr (d : Assoc) (y : String) (w : Value) :
    assocFind (assocInsert d (vstr y) w) (vstr y) = some w := by
  induction d with
  | nil => simp [assocInsert, assocFind, pyEqOrIs_vstr_vstr]
  | cons e t ih =>
    obtain ⟨a, b⟩ := e
    by_cases h : pyEqOrIs a (vstr y) = true
    · have ha := pyEqOrIs_of_vstr h
      simp [assocInsert, h, assocFind, ha, pyEqOrIs_vstr_vstr]
    · simp only [assocInsert, h]
      simp only [Bool.false_eq_true, if_false]
      simp [assocFind, h, ih]

theorem assocFind_insert_ne_vstr (d : Assoc) (y s : String) (w : Value) (h : y ≠ s) :
    assocFind (assocInsert d (vstr y) w) (vstr s) = assocFind d (vstr s) := by
  induction d with
  | nil => simp [assocInsert, assocFind, pyEqOrIs_vstr_vstr, h]
  | cons e t ih =>
    obtain ⟨a, b⟩ := e
    by_cases ha : pyEqOrIs a (vstr y) = true
    · have hay := pyEqOrIs_of_vstr ha
      subst hay
      simp [assocInsert, ha, assocFind, pyEqOrIs_vstr_vstr, h]
    · simp only [assocInsert, ha, Bool.false_eq_true, if_false]
      by_cases hs : pyEqOrIs a (vstr s) = true
      · simp [assocFind, hs]
      · simp [assocFind, hs, ih]

theorem storeFind_insert_self (st : Store) (n : String) (d : Assoc) :
    storeFind (storeInsert st n d) n = some d := by
  induction st with
  | nil => simp [storeInsert, storeFind]
  | cons e t ih =>
    obtain ⟨m, a⟩ := e
    by_cases h : m = n
    · simp [storeInsert, storeFind, h]
    · simp [storeInsert, storeFind, h, ih]

theorem mem_foldOcc (x : String) (l : List String) :
    ∀ d : List String, x ∈ foldOcc d l ↔ x ∈ d ∨ x ∈ l := by
  induction l with
  | nil => intro d; simp [foldOcc]
  | cons a t ih =>
    intro d
    by_cases h : a ∈ d
    · simp only [foldOcc, if_pos h]
      rw [ih]
      constructor
      · rintro (hx | hx)
        · exact Or.inl hx
        · exact Or.inr (List.mem_cons_of_mem a hx)
      · rintro (hx | hx)
        · exact Or.inl hx
        · rcases List.mem_cons.mp hx with rfl | hx
          · exact Or.inl h
          · exact Or.inr hx
    · simp only [foldOcc, if_neg h]
      rw [ih]
      simp only [List.mem_append, List.mem_singleton, List.mem_cons]
      tauto

theorem find?_foldOcc (P : String → Bool) (l : List String) :
    ∀ d : List String, List.find? P (foldOcc d l) = (List.find? P d).or (List.find? P l) := by
  induction l with
  | nil => intro d; simp [foldOcc]
  | cons a t ih =>
    intro d
    by_cases h : a ∈ d
    · simp only [foldOcc, if_pos h]
      rw [ih]
      cases hd : List.find? P d with
      | some x => simp
      | none =>
        have hpa : P a = false := by
          cases hp : P a
          · rfl
          · exact absurd hp (by simpa using List.find?_eq_none.mp hd a h)
        simp [List.find?_cons, hpa]
    · simp only [foldOcc, if_neg h]
      rw [ih, List.find?_append]
      cases hd : List.find? P d with
      | some x => simp
      | none =>
        cases hp : P a
        · simp [List.find?_cons, hp]
        · simp [List.find?_cons, hp]

theorem find?_foldOcc_nil (P : String → Bool) (l : List String) :
    List.find? P (foldOcc [] l) = List.find? P l := by
  rw [find?_foldOcc]
  rfl

theorem EW.bind_assoc {α β γ : Type} (x : EW α) (f : α → EW β) (g : β → EW γ) :
    EW.bind (EW.bind x f) g = EW.bind x (fun a => EW.bind (f a) g) := by
  obtain ⟨lx, ex⟩ := x
  cases ex with
  | error e => rfl
  | ok a =>
    simp only [EW.bind]
    obtain ⟨lf, ef⟩ := f a
    cases ef with
    | error e => simp [EW.bind]
    | ok b => simp [EW.bind, List.append_assoc]

theorem EW.bind_eq_ok {α β : Type} {x : EW α} {f : α → EW β} {log : List MatchEvent}
    {b : β} (h : EW.bind x f = (log, Except.ok b)) :
    ∃ l1 a l2, x = (l1, Except.ok a) ∧ f a = (l2, Except.ok b) ∧ log = l1 ++ l2 := by
  obtain ⟨lx, ex⟩ := x
  cases ex with
  | error e =>
    have h2 := congrArg Prod.snd h
    simp only [EW.bind] at h2
    exact absurd h2 (by simp)
  | ok a =>
    have h1 := congrArg Prod.fst h
    have h2 := congrArg Prod.snd h
    simp only [EW.bind] at h1 h2
    refine ⟨lx, a, (f a).1, rfl, ?_, h1.symm⟩
    have hfa : f a = ((f a).1, (f a).2) := rfl
    rw [hfa, h2]

theorem scoreOne_str (R : String → String → Nat) (T : Nat) (a b : String) :
    scoreOne R T (vstr a) (vstr b) =
      ([MatchEvent.score (vstr a) (vstr b)], Except.ok (clampScore R T a b)) := rfl

theorem tempInsert_map_mem (f : String → Nat) (D : List String) (a : String) (h : a ∈ D) :
    tempInsert (D.map (fun t => (vstr t, f t))) (vstr a) (f a) =
      D.map (fun t => (vstr t, f t)) := by
  induction D with
  | nil => cases h
  | cons d t ih =>
    simp only [List.map_cons, tempInsert, pyEqOrIs_vstr_vstr]
    by_cases hda : d = a
    · subst hda
      simp
    · rcases List.mem_cons.mp h with rfl | hmem
      · exact absurd rfl hda
      · simp [hda, ih hmem]

theorem tempInsert_map_not_mem (f : String → Nat) (D : List String) (a : String)
    (h : a ∉ D) :
    tempInsert (D.map (fun t => (vstr t, f t))) (vstr a) (f a) =
      (D ++ [a]).map (fun t => (vstr t, f t)) := by
  induction D with
  | nil => rfl
  | cons d t ih =>
    have hda : ¬ d = a := fun hc => h (hc ▸ List.mem_cons_self d t)
    simp only [List.map_cons, tempInsert, pyEqOrIs_vstr_vstr, List.cons_append]
    simp only [hda, decide_eq_true_eq, if_false, Bool.false_eq_true]
    rw [ih (fun hc => h (List.mem_cons_of_mem d hc))]

theorem scoreLoop_str (R : String → String → Nat) (T : Nat) (s : String) (l2 : List String) :
    ∀ D : List String,
      scoreLoop R T (vstr s) (l2.map vstr) (D.map (fun t => (vstr t, clampScore R T s t))) =
        (l2.map (fun t => MatchEvent.score (vstr s) (vstr t)),
          Except.ok ((foldOcc D l2).map (fun t => (vstr t, clampScore R T s t)))) := by
  induction l2 with
  | nil => intro D; rfl
  | cons a t ih =>
    intro D
    rw [List.map_cons]
    show EW.bind (scoreOne R T (vstr s) (vstr a))
        (fun sc => scoreLoop R T (vstr s) (t.map vstr)
          (tempInsert (D.map (fun u => (vstr u, clampScore R T s u))) (vstr a) sc)) = _
    rw [scoreOne_str, EW.bind_ok]
    by_cases h : a ∈ D
    · rw [tempInsert_map_mem _ _ _ h]
      rw [ih D]
      simp [foldOcc, h]
    · rw [tempInsert_map_not_mem _ _ _ h]
      rw [ih (D ++ [a])]
      simp [foldOcc, h]

theorem tempMaxVal_map (f : String → Nat) (K : List String) :
    tempMaxVal (K.map (fun t => (vstr t, f t))) = (K.map f).foldr max 0 := by
  induction K with
  | nil => rfl
  | cons a t ih => simp [tempMaxVal, ih]

theorem foldr_max_le {l : List Nat} {n : Nat} (h : ∀ x ∈ l, x ≤ n) : l.foldr max 0 ≤ n := by
  induction l with
  | nil => exact Nat.zero_le n
  | cons a t ih =>
    simp only [List.foldr_cons]
    exact max_le (h a (List.mem_cons_self a t)) (ih fun x hx => h x (List.mem_cons_of_mem a hx))

theorem le_foldr_max {l : List Nat} {x : Nat} (h : x ∈ l) : x ≤ l.foldr max 0 := by
  induction l with
  | nil => cases h
  | cons a t ih =>
    simp only [List.foldr_cons]
    rcases List.mem_cons.mp h with rfl | hx
    · exact le_max_left _ _
    · exact le_trans (ih hx) (le_max_right _ _)

theorem foldr_max_map_eq (f : String → Nat) (A B : List String)
    (h : ∀ x, x ∈ A ↔ x ∈ B) :
    (A.map f).foldr max 0 = (B.map f).foldr max 0 := by
  apply le_antisymm
  · apply foldr_max_le
    intro x hx
    obtain ⟨a, ha, rfl⟩ := List.mem_map.mp hx
    exact le_foldr_max (List.mem_map.mpr ⟨a, (h a).mp ha, rfl⟩)
  · apply foldr_max_le
    intro x hx
    obtain ⟨b, hb, rfl⟩ := List.mem_map.mp hx
    exact le_foldr_max (List.mem_map.mpr ⟨b, (h b).mpr hb, rfl⟩)

theorem foldr_max_mem_of_ne_zero {l : List Nat} (h : l.foldr max 0 ≠ 0) :
    l.foldr max 0 ∈ l := by
  induction l with
  | nil => exact absurd rfl h
  | cons a t ih =>
    simp only [List.foldr_cons] at h ⊢
    by_cases hle : t.foldr max 0 ≤ a
    · rw [Nat.max_eq_left hle]
      exact List.mem_cons_self a t
    · have hlt : a ≤ t.foldr max 0 := Nat.le_of_lt (Nat.lt_of_not_le hle)
      rw [Nat.max_eq_right hlt] at h ⊢
      exact List.mem_cons_of_mem a (ih h)

theorem tempArgMax_find (l : TempScores) :
    ∀ b : Value × Nat,
      List.find? (fun e => decide (e.2 = max b.2 (tempMaxVal l))) (b :: l) =
        some (tempArgMax b l) := by
  induction l with
  | nil =>
    intro b
    simp [tempArgMax, tempMaxVal, List.find?_cons]
  | cons p t ih =>
    intro b
    have hM : max b.2 (tempMaxVal (p :: t)) =
        max (if b.2 < p.2 then p else b).2 (tempMaxVal t) := by
      by_cases hb : b.2 < p.2
      · simp only [hb, if_true, tempMaxVal]
        omega
      · simp only [hb, if_false, tempMaxVal]
        omega
    by_cases hb : b.2 < p.2
    · -- b is strictly below p, so b can never be the maximum
      have hbM : ¬ (b.2 = max b.2 (tempMaxVal (p :: t))) := by
        simp only [tempMaxVal]
        omega
      rw [List.find?_cons_of_neg _ (by simpa using hbM)]
      have := ih (if b.2 < p.2 then p else b)
      simp only [hb, if_true] at this
      rw [hM]
      simp only [hb, if_true]
      show List.find? _ (p :: t) = some (tempArgMax b (p :: t))
      simp only [tempArgMax, hb, if_true]
      exact this
    · -- b stays the current best
      have := ih (if b.2 < p.2 then p else b)
      simp only [hb, if_false] at this
      rw [hM]
      simp only [hb, if_false]
      show List.find? _ (b :: p :: t) = some (tempArgMax b (p :: t))
      simp only [tempArgMax, hb, if_false]
      by_cases hbtop : b.2 = max b.2 (tempMaxVal t)
      · rw [List.find?_cons_of_pos _ (by simpa using hbtop)]
        rw [List.find?_cons_of_pos _ (by simpa using hbtop)] at this
        exact this
      · rw [List.find?_cons_of_neg _ (by simpa using hbtop)]
        rw [List.find?_cons_of_neg _ (by simpa using hbtop)] at this
        have hpM : ¬ (p.2 = max b.2 (tempMaxVal t)) := by
          have hble : p.2 ≤ b.2 := Nat.le_of_not_lt hb
          have : b.2 < max b.2 (tempMaxVal t) :=
            Nat.lt_of_le_of_ne (Nat.le_max_left _ _) hbtop
          omega
        rw [List.find?_cons_of_neg _ (by simpa using hpM)]
        exact this

theorem bfmStepVal_empty_str (R : String → String → Nat) (T : Nat) (L2 : List Value)
    (S : Assoc) : bfmStepVal R T L2 S (vstr "") = ([], Except.ok (vstr "None")) := by
  simp [bfmStepVal, pyEq, EW.pure]

theorem bfmStepVal_exact (R : String → String → Nat) (T : Nat) (l2 : List String)
    (S : Assoc) (s : String) (h0 : s ≠ "") (h : s ∈ l2) :
    bfmStepVal R T (l2.map vstr) S (vstr s) = ([], Except.ok (vstr s)) := by
  unfold bfmStepVal
  rw [if_neg (by simp [pyEq, h0]), if_pos (by simp [pyMem_map_vstr, h])]
  rfl

theorem bfmStepVal_cached (R : String → String → Nat) (T : Nat) (l2 : List String)
    (S : Assoc) (s : String) (w : Value) (h0 : s ≠ "") (h1 : s ∉ l2)
    (h2 : assocFind S (vstr s) = some w) :
    bfmStepVal R T (l2.map vstr) S (vstr s) = ([], Except.ok w) := by
  unfold bfmStepVal
  rw [if_neg (by simp [pyEq, h0]), if_neg (by simp [pyMem_map_vstr, h1]), h2]
  rfl

theorem foldOcc_nil_ne {l2 : List String} (h : l2 ≠ []) : foldOcc [] l2 ≠ [] := by
  intro hc
  obtain ⟨a, t, rfl⟩ := List.exists_cons_of_ne_nil h
  have : a ∈ foldOcc [] (a :: t) := (mem_foldOcc a (a :: t) []).mpr
    (Or.inr (List.mem_cons_self a t))
  rw [hc] at this
  cases this

theorem bfmStepVal_scored (R : String → String → Nat) (T : Nat) (l2 : List String)
    (S : Assoc) (s : String) (h0 : s ≠ "") (h1 : s ∉ l2)
    (h2 : assocFind S (vstr s) = none) (hne : l2 ≠ []) :
    bfmStepVal R T (l2.map vstr) S (vstr s) =
      (l2.map (fun t => MatchEvent.score (vstr s) (vstr t)),
        Except.ok (specBest R T s l2)) := by
  unfold bfmStepVal
  rw [if_neg (by simp [pyEq, h0]), if_neg (by simp [pyMem_map_vstr, h1]), h2]
  have hsl := scoreLoop_str R T s l2 []
  simp only [List.map_nil] at hsl
  rw [hsl, EW.bind_ok]
  have hKiff : ∀ x, x ∈ foldOcc [] l2 ↔ x ∈ l2 := by
    intro x
    rw [mem_foldOcc]
    simp
  have hmax : tempMaxVal ((foldOcc [] l2).map (fun t => (vstr t, clampScore R T s t))) =
      (l2.map (clampScore R T s)).foldr max 0 := by
    rw [tempMaxVal_map]
    exact foldr_max_map_eq _ _ l2 hKiff
  obtain ⟨k0, kt, hKc⟩ : ∃ k0 kt, foldOcc [] l2 = k0 :: kt := by
    cases hc : foldOcc [] l2 with
    | nil => exact absurd hc (foldOcc_nil_ne hne)
    | cons a b => exact ⟨a, b, rfl⟩
  rw [hKc, List.map_cons] at hmax ⊢
  simp only [List.isEmpty_cons, Bool.false_eq_true, if_false]
  by_cases hz : (l2.map (clampScore R T s)).foldr max 0 = 0
  · rw [if_pos (by rw [hmax]; exact hz)]
    unfold specBest
    rw [if_pos hz]
    simp [EW.pure]
  · rw [if_neg (by rw [hmax]; exact hz)]
    have hfind := tempArgMax_find (kt.map (fun t => (vstr t, clampScore R T s t)))
      (vstr k0, clampScore R T s k0)
    have htop : max (clampScore R T s k0)
        (tempMaxVal (kt.map (fun t => (vstr t, clampScore R T s t)))) =
        (l2.map (clampScore R T s)).foldr max 0 := by
      simpa [tempMaxVal] using hmax
    rw [htop] at hfind
    have hmap : List.find?
          (fun e => decide (e.2 = (l2.map (clampScore R T s)).foldr max 0))
          ((vstr k0, clampScore R T s k0) ::
            kt.map (fun t => (vstr t, clampScore R T s t))) =
        (List.find? (fun t =>
            decide (clampScore R T s t = (l2.map (clampScore R T s)).foldr max 0))
          (k0 :: kt)).map (fun t => (vstr t, clampScore R T s t)) := by
      rw [show ((vstr k0, clampScore R T s k0) ::
          kt.map (fun t => (vstr t, clampScore R T s t))) =
          (k0 :: kt).map (fun t => (vstr t, clampScore R T s t)) from rfl]
      rw [List.find?_map]
      rfl
    rw [hmap] at hfind
    have hKfind : List.find? (fun t =>
          decide (clampScore R T s t = (l2.map (clampScore R T s)).foldr max 0))
        (k0 :: kt) =
        List.find? (fun t =>
          decide (clampScore R T s t = (l2.map (clampScore R T s)).foldr max 0)) l2 := by
      rw [← hKc]
      exact find?_foldOcc_nil _ l2
    rw [hKfind] at hfind
    have hattain : ∃ t0, List.find? (fun t =>
          decide (clampScore R T s t = (l2.map (clampScore R T s)).foldr max 0)) l2 =
        some t0 := by
      have hmem := foldr_max_mem_of_ne_zero (l := l2.map (clampScore R T s)) hz
      obtain ⟨t0, ht0, hval⟩ := List.mem_map.mp hmem
      rcases hfs : List.find? (fun t =>
          decide (clampScore R T s t = (l2.map (clampScore R T s)).foldr max 0)) l2 with
        _ | ⟨t1⟩
      · exact absurd hval (by simpa using List.find?_eq_none.mp hfs t0 ht0)
      · exact ⟨t1, rfl⟩
    obtain ⟨t0, ht0⟩ := hattain
    rw [ht0] at hfind
    simp only [Option.map_some'] at hfind
    have harg := Option.some.inj hfind
    unfold specBest
    rw [if_neg hz, ht0, ← harg]
    simp [EW.pure]


theorem bfmStep_eq (R : String → String → Nat) (T : Nat) (L2 : List Value) (S : Assoc)
    (acc : Assoc) (v : Value) :
    bfmStep R T L2 S acc v =
      EW.bind (bfmStepVal R T L2 S v) (fun w => ([], Except.ok (assocInsert acc v w))) := by
  unfold bfmStep bfmStepVal
  by_cases h1 : pyEq v (vstr "") = true
  · rw [if_pos h1, if_pos h1]
    rw [pyEq_vstr_empty h1]
    rfl
  · rw [if_neg h1, if_neg h1]
    by_cases h2 : pyMem v L2 = true
    · rw [if_pos h2, if_pos h2]
      rfl
    · rw [if_neg h2, if_neg h2]
      cases hS : assocFind S v with
      | some w => rfl
      | none =>
        rw [EW.bind_assoc]
        show EW.bind _ _ = EW.bind _ _
        cases hsl : scoreLoop R T v L2 [] with
        | mk lg e =>
          cases e with
          | error msg => rw [EW.bind_err, EW.bind_err]
          | ok temp =>
            rw [EW.bind_ok, EW.bind_ok]
            by_cases he : temp.isEmpty
            · simp only [he, if_true]
              rfl
            · simp only [he, Bool.false_eq_true, if_false]
              by_cases hm : tempMaxVal temp = 0
              · simp only [hm, if_pos]
                rfl
              · simp only [hm, if_neg, Bool.false_eq_true]
                cases temp with
                | nil => rfl
                | cons p t => rfl

theorem bfmLoop_nil (R : String → String → Nat) (T : Nat) (L2 : List Value) (S : Assoc)
    (acc : Assoc) : bfmLoop R T L2 S acc [] = ([], Except.ok acc) := rfl

theorem bfmLoop_cons (R : String → String → Nat) (T : Nat) (L2 : List Value) (S : Assoc)
    (acc : Assoc) (v : Value) (vs : List Value) :
    bfmLoop R T L2 S acc (v :: vs) =
      EW.bind (bfmStep R T L2 S acc v) (fun a => bfmLoop R T L2 S a vs) := rfl

theorem bfmStepVal_str_ok (R : String → String → Nat) (T : Nat) (l2 : List String)
    (S : Assoc) (s : String) (hne : l2 ≠ []) :
    ∃ lg w, bfmStepVal R T (l2.map vstr) S (vstr s) = (lg, Except.ok w) := by
  by_cases h0 : s = ""
  · subst h0
    exact ⟨[], vstr "None", bfmStepVal_empty_str R T _ S⟩
  · by_cases h1 : s ∈ l2
    · exact ⟨[], vstr s, bfmStepVal_exact R T l2 S s h0 h1⟩
    · cases hS : assocFind S (vstr s) with
      | some w => exact ⟨[], w, bfmStepVal_cached R T l2 S s w h0 h1 hS⟩
      | none =>
        exact ⟨_, _, bfmStepVal_scored R T l2 S s h0 h1 hS hne⟩

theorem bfmLoop_str_ok (R : String → String → Nat) (T : Nat) (l2 : List String)
    (S : Assoc) (hne : l2 ≠ []) (l1 : List String) :
    ∀ acc, ∃ lg d, bfmLoop R T (l2.map vstr) S acc (l1.map vstr) = (lg, Except.ok d) := by
  induction l1 with
  | nil => intro acc; exact ⟨[], acc, rfl⟩
  | cons a t ih =>
    intro acc
    obtain ⟨lg, w, hw⟩ := bfmStepVal_str_ok R T l2 S a hne
    obtain ⟨lg2, d, hd⟩ := ih (assocInsert acc (vstr a) w)
    refine ⟨lg ++ lg2, d, ?_⟩
    rw [List.map_cons, bfmLoop_cons, bfmStep_eq, hw, EW.bind_ok, EW.bind_ok]
    simp only [List.append_nil]
    rw [hd]

theorem bfmLoop_preserve (R : String → String → Nat) (T : Nat) (L2v : List Value)
    (S : Assoc) (l : List String) (s : String) (hs : s ∉ l) :
    ∀ acc lg d, bfmLoop R T L2v S acc (l.map vstr) = (lg, Except.ok d) →
      assocFind d (vstr s) = assocFind acc (vstr s) := by
  induction l with
  | nil =>
    intro acc lg d h
    simp only [List.map_nil, bfmLoop_nil] at h
    cases h
    rfl
  | cons a t ih =>
    intro acc lg d h
    rw [List.map_cons, bfmLoop_cons, bfmStep_eq, EW.bind_assoc] at h
    obtain ⟨l1, w, l2, hval, hrest, hlog⟩ := EW.bind_eq_ok h
    rw [EW.bind_ok] at hrest
    have h2 := congrArg Prod.snd hrest
    simp only at h2
    have hloop : bfmLoop R T L2v S (assocInsert acc (vstr a) w) (t.map vstr) =
        ((bfmLoop R T L2v S (assocInsert acc (vstr a) w) (t.map vstr)).1,
          Except.ok d) :=
      Prod.ext rfl h2
    have hst : s ∉ t := fun hc => hs (List.mem_cons_of_mem a hc)
    have hsa : a ≠ s := fun hc => hs (hc ▸ List.mem_cons_self a t)
    rw [ih hst (assocInsert acc (vstr a) w) _ d hloop]
    exact assocFind_insert_ne_vstr acc a s w hsa

theorem bfmLoop_find_final (R : String → String → Nat) (T : Nat) (L2v : List Value)
    (S : Assoc) (l : List String) :
    ∀ acc lg d, bfmLoop R T L2v S acc (l.map vstr) = (lg, Except.ok d) →
      ∀ s ∈ l, ∃ lw w, bfmStepVal R T L2v S (vstr s) = (lw, Except.ok w) ∧
        assocFind d (vstr s) = some w := by
  induction l with
  | nil =>
    intro acc lg d _ s hsmem
    cases hsmem
  | cons a t ih =>
    intro acc lg d h s hsmem
    rw [List.map_cons, bfmLoop_cons, bfmStep_eq, EW.bind_assoc] at h
    obtain ⟨l1, w, l2, hval, hrest, hlog⟩ := EW.bind_eq_ok h
    rw [EW.bind_ok] at hrest
    have h2 := congrArg Prod.snd hrest
    simp only at h2
    have hloop : bfmLoop R T L2v S (assocInsert acc (vstr a) w) (t.map vstr) =
        ((bfmLoop R T L2v S (assocInsert acc (vstr a) w) (t.map vstr)).1,
          Except.ok d) :=
      Prod.ext rfl h2
    by_cases hst : s ∈ t
    · exact ih (assocInsert acc (vstr a) w) _ d hloop s hst
    · rcases List.mem_cons.mp hsmem with rfl | hmem
      · refine ⟨l1, w, hval, ?_⟩
        rw [bfmLoop_preserve R T L2v S t s hst (assocInsert acc (vstr s) w) _ d hloop]
        exact assocFind_insert_self_vstr acc s w
      · exact absurd hmem hst


theorem best_fuzzy_match_unfold (R : String → String → Nat) (L1 L2 : List Value)
    (T : Nat) (name : String) (store : Store) :
    best_fuzzy_match R L1 L2 T name store =
      EW.bind (bfmLoop R T L2 (loadStored name store) [] L1)
        (fun d => ([], Except.ok (d,
          if name ≠ "NoStore" then storeInsert store name d else store))) := rfl

/-- C3 amended: for every similarity scorer, source and target string lists,
threshold, cache namespace and store, a NON-EMPTY source string that occurs
verbatim in the target list is mapped to itself by `best_fuzzy_match`,
regardless of the threshold and of any cached entry (the exact short-circuit
precedes the cache lookup).  The empty string is the one exception the
counterexample exhibits. -/
theorem best_fuzzy_match_exact_short_circuit (R : String → String → Nat)
    (l1 l2 : List String) (T : Nat) (name : String) (store : Store) (s : String)
    (h1 : s ∈ l1) (h0 : s ≠ "") (h2 : s ∈ l2) :
    ∃ lg d st, best_fuzzy_match R (l1.map vstr) (l2.map vstr) T name store =
        (lg, Except.ok (d, st)) ∧ assocFind d (vstr s) = some (vstr s) := by
  have hne : l2 ≠ [] := fun hc => by rw [hc] at h2; cases h2
  obtain ⟨lg, d, hloop⟩ := bfmLoop_str_ok R T l2 (loadStored name store) hne l1 []
  refine ⟨lg ++ [], d, if name ≠ "NoStore" then storeInsert store name d else store, ?_, ?_⟩
  · rw [best_fuzzy_match_unfold, hloop, EW.bind_ok]
  · obtain ⟨lw, w, hw, hfind⟩ :=
      bfmLoop_find_final R T (l2.map vstr) (loadStored name store) l1 [] lg d hloop s h1
    rw [bfmStepVal_exact R T l2 (loadStored name store) s h0 h2] at hw
    have : w = vstr s := by
      have := congrArg Prod.snd hw
      simpa using this.symm
    rw [hfind, this]

/-- Witness for the C3 amended theorem at a concrete input. -/
theorem best_fuzzy_match_exact_short_circuit_witness :
    ∃ lg d st, best_fuzzy_match ratioZero (["ab"].map vstr) (["ab"].map vstr) 80
        "NoStore" [] = (lg, Except.ok (d, st)) ∧
      assocFind d (vstr "ab") = some (vstr "ab") :=
  best_fuzzy_match_exact_short_circuit ratioZero ["ab"] ["ab"] 80 "NoStore" [] "ab"
    (by decide) (by decide) (by decide)

/-- C1 amended: for every similarity scorer, threshold, namespace and store,
and every NON-EMPTY target list, a non-empty source string that is neither in
the target list nor a key of the loaded cache is mapped to the target string
with the maximum clamped similarity score — scores below the threshold count
as 0, ties are broken by the first maximum in target order, and an all-zero
score row maps to the sentinel `"None"` (`specBest` states exactly this
selection rule).  The empty-target proviso is what the counterexample
forces: there the code raises instead of returning `"None"`. -/
theorem best_fuzzy_match_scores_argmax (R : String → String → Nat)
    (l1 l2 : List String) (T : Nat) (name : String) (store : Store) (s : String)
    (h1 : s ∈ l1) (h0 : s ≠ "") (h2 : s ∉ l2)
    (h3 : assocFind (loadStored name store) (vstr s) = none) (hne : l2 ≠ []) :
    ∃ lg d st, best_fuzzy_match R (l1.map vstr) (l2.map vstr) T name store =
        (lg, Except.ok (d, st)) ∧ assocFind d (vstr s) = some (specBest R T s l2) := by
  obtain ⟨lg, d, hloop⟩ := bfmLoop_str_ok R T l2 (loadStored name store) hne l1 []
  refine ⟨lg ++ [], d, if name ≠ "NoStore" then storeInsert store name d else store, ?_, ?_⟩
  · rw [best_fuzzy_match_unfold, hloop, EW.bind_ok]
  · obtain ⟨lw, w, hw, hfind⟩ :=
      bfmLoop_find_final R T (l2.map vstr) (loadStored name store) l1 [] lg d hloop s h1
    rw [bfmStepVal_scored R T l2 (loadStored name store) s h0 h2 h3 hne] at hw
    have : w = specBest R T s l2 := by
      have := congrArg Prod.snd hw
      simpa using this.symm
    rw [hfind, this]

/-- Witness for the C1 amended theorem at a concrete input. -/
theorem best_fuzzy_match_scores_argmax_witness :
    ∃ lg d st, best_fuzzy_match ratioZero (["ab"].map vstr) (["xy"].map vstr) 80
        "NoStore" [] = (lg, Except.ok (d, st)) ∧
      assocFind d (vstr "ab") = some (specBest ratioZero 80 "ab" ["xy"]) :=
  best_fuzzy_match_scores_argmax ratioZero ["ab"] ["xy"] 80 "NoStore" [] "ab"
    (by decide) (by decide) (by decide) (by decide) (by decide)


theorem bfmLoop_replay (R : String → String → Nat) (T : Nat) (l2 : List String)
    (S D : Assoc) (l : List String)
    (hD : ∀ s ∈ l, ∃ lw w, bfmStepVal R T (l2.map vstr) S (vstr s) = (lw, Except.ok w) ∧
        assocFind D (vstr s) = some w) :
    ∀ acc lg d, bfmLoop R T (l2.map vstr) S acc (l.map vstr) = (lg, Except.ok d) →
      bfmLoop R T (l2.map vstr) D acc (l.map vstr) = ([], Except.ok d) := by
  induction l with
  | nil =>
    intro acc lg d h
    simp only [List.map_nil, bfmLoop_nil] at h ⊢
    cases h
    rfl
  | cons a t ih =>
    intro acc lg d h
    rw [List.map_cons, bfmLoop_cons, bfmStep_eq, EW.bind_assoc] at h
    obtain ⟨lx, w, ly, hval, hrest, _⟩ := EW.bind_eq_ok h
    rw [EW.bind_ok] at hrest
    have h2 := congrArg Prod.snd hrest
    simp only at h2
    have hloop : bfmLoop R T (l2.map vstr) S (assocInsert acc (vstr a) w) (t.map vstr) =
        ((bfmLoop R T (l2.map vstr) S (assocInsert acc (vstr a) w) (t.map vstr)).1,
          Except.ok d) :=
      Prod.ext rfl h2
    obtain ⟨lwa, wa, hva, hfa⟩ := hD a (List.mem_cons_self a t)
    have hwa : wa = w := by
      have := hva.symm.trans hval
      have := congrArg Prod.snd this
      simpa using this
    have hstep2 : bfmStepVal R T (l2.map vstr) D (vstr a) = ([], Except.ok w) := by
      by_cases h0 : a = ""
      · subst h0
        rw [bfmStepVal_empty_str]
        rw [bfmStepVal_empty_str] at hval
        have := congrArg Prod.snd hval
        simp only at this
        rw [← Except.ok.inj this]
      · by_cases hm : a ∈ l2
        · rw [bfmStepVal_exact R T l2 D a h0 hm]
          rw [bfmStepVal_exact R T l2 S a h0 hm] at hval
          have := congrArg Prod.snd hval
          simp only at this
          rw [← Except.ok.inj this]
        · exact bfmStepVal_cached R T l2 D a w h0 hm (hwa ▸ hfa)
    have hDt : ∀ s ∈ t, ∃ lw w, bfmStepVal R T (l2.map vstr) S (vstr s) =
        (lw, Except.ok w) ∧ assocFind D (vstr s) = some w :=
      fun s hs => hD s (List.mem_cons_of_mem a hs)
    have ihx := ih hDt (assocInsert acc (vstr a) w) _ d hloop
    rw [List.map_cons, bfmLoop_cons, bfmStep_eq, hstep2, EW.bind_ok, EW.bind_ok]
    simp only [List.append_nil, List.nil_append]
    rw [ihx]

/-- C6 confirmed: cache transparency.  If a call of `best_fuzzy_match` over
string lists with a persistent namespace succeeds, an immediately following
identical call against the store the first call wrote returns the very same
mapping, persists it again unchanged, and performs zero pairwise similarity
scorings — its work trace is empty, because every source string now hits the
empty-string rule, the exact short-circuit, or the loaded cache. -/
theorem best_fuzzy_match_cache_transparency (R : String → String → Nat)
    (l1 l2 : List String) (T : Nat) (ns : String) (store : Store)
    (lg1 : List MatchEvent) (d : Assoc) (st1 : Store) (hns : ns ≠ "NoStore")
    (h : best_fuzzy_match R (l1.map vstr) (l2.map vstr) T ns store =
      (lg1, Except.ok (d, st1))) :
    best_fuzzy_match R (l1.map vstr) (l2.map vstr) T ns st1 =
      ([], Except.ok (d, storeInsert st1 ns d)) := by
  rw [best_fuzzy_match_unfold] at h
  obtain ⟨lx, d0, ly, hloop, hpair, _⟩ := EW.bind_eq_ok h
  have hpair2 := congrArg Prod.snd hpair
  simp only at hpair2
  have hpair3 := Except.ok.inj hpair2
  have hd0 : d0 = d := congrArg Prod.fst hpair3
  have hst1 : (if ns ≠ "NoStore" then storeInsert store ns d0 else store) = st1 :=
    congrArg Prod.snd hpair3
  rw [hd0] at hloop hst1
  rw [if_pos hns] at hst1
  have hload : loadStored ns st1 = d := by
    rw [← hst1]
    unfold loadStored
    rw [if_pos hns, storeFind_insert_self]
    rfl
  have hloop' : bfmLoop R T (l2.map vstr) (loadStored ns store) [] (l1.map vstr) =
      (lx, Except.ok d) := hloop
  have hD := bfmLoop_find_final R T (l2.map vstr) (loadStored ns store) l1 [] lx d hloop'
  have hreplay := bfmLoop_replay R T l2 (loadStored ns store) d l1 hD [] lx d hloop'
  rw [best_fuzzy_match_unfold, hload, hreplay, EW.bind_ok]
  rw [if_pos hns]
  rfl

/-- Witness for C6 at a concrete input: the first call scores once and maps
`"ab"` to `"None"`; the second call against the written store returns the
same mapping with an empty work trace. -/
theorem best_fuzzy_match_cache_transparency_witness :
    best_fuzzy_match ratioZero (["ab"].map vstr) (["xy"].map vstr) 50 "ns"
        (storeInsert [] "ns" [(vstr "ab", vstr "None")]) =
      ([], Except.ok ([(vstr "ab", vstr "None")],
        storeInsert (storeInsert [] "ns" [(vstr "ab", vstr "None")]) "ns"
          [(vstr "ab", vstr "None")])) :=
  best_fuzzy_match_cache_transparency ratioZero ["ab"] ["xy"] 50 "ns" []
    [MatchEvent.score (vstr "ab") (vstr "xy")] [(vstr "ab", vstr "None")]
    (storeInsert [] "ns" [(vstr "ab", vstr "None")]) (by decide) (by decide)


theorem zipWith_and_assoc (a b c : List Bool) :
    (a.zipWith and b).zipWith and c = a.zipWith and (b.zipWith and c) := by
  induction a generalizing b c with
  | nil => simp
  | cons x xs ih =>
    cases b with
    | nil => simp
    | cons y ys =>
      cases c with
      | nil => simp
      | cons z zs =>
        simp only [List.zipWith_cons_cons, ih]
        rw [Bool.and_assoc]

theorem zipWith_and_map_map {α : Type} (l : List α) (f g : α → Bool) :
    (l.map f).zipWith and (l.map g) = l.map (fun x => f x && g x) := by
  induction l with
  | nil => rfl
  | cons x xs ih => simp [ih]

theorem zipWith_and_map_true {α : Type} (mask : List Bool) (l : List α)
    (h : mask.length ≤ l.length) :
    mask.zipWith and (l.map (fun _ => true)) = mask := by
  induction mask generalizing l with
  | nil => rfl
  | cons m ms ih =>
    cases l with
    | nil => simp at h
    | cons x xs =>
      simp only [List.map_cons, List.zipWith_cons_cons, Bool.and_true]
      rw [ih xs (by simpa using h)]

theorem replicate_zipWith_and {α : Type} (l : List α) (f : α → Bool) :
    (List.replicate l.length true).zipWith and (l.map f) = l.map f := by
  induction l with
  | nil => rfl
  | cons x xs ih => simp [List.replicate_succ, ih]

theorem any_id_filter (l : List Bool) :
    decide (0 < (l.filter id).length) = l.any id := by
  induction l with
  | nil => rfl
  | cons b t ih =>
    cases b with
    | true => simp [List.filter]
    | false => simpa [List.filter] using ih

theorem except_bind_ok {α β : Type} (a : α) (f : α → Except String β) :
    (Except.ok a >>= f) = f a := rfl

theorem except_bind_err {α β : Type} (e : String) (f : α → Except String β) :
    ((Except.error e : Except String α) >>= f) = Except.error e := rfl

theorem pyIndex_cons_zero {α : Type} (a : α) (l : List α) :
    pyIndex (a :: l) 0 = Except.ok a := rfl

theorem pyIndex_nil {α : Type} (i : Nat) :
    (pyIndex [] i : Except String α) = Except.error "IndexError: list index out of range" := by
  simp [pyIndex]

theorem getColumn_ok {df : DataFrame} {c : String} {col : List Value}
    (h : df.getColumn c = Except.ok col) :
    ∃ i, df.cols.findIdx? (fun x => x = c) = some i ∧
      col = df.rows.map (fun r => r.getD i vnull) := by
  unfold DataFrame.getColumn at h
  cases hidx : df.cols.findIdx? (fun x => x = c) with
  | none => rw [hidx] at h; cases h
  | some i =>
    rw [hidx] at h
    exact ⟨i, rfl, (Except.ok.inj h).symm⟩

theorem rowGet_ok {rowCols : List String} {row : List Value} {c : String} {rv : Value}
    (h : DataFrame.rowGet rowCols row c = Except.ok rv) :
    ∃ j, rowCols.findIdx? (fun x => x = c) = some j ∧ rv = row.getD j vnull := by
  unfold DataFrame.rowGet at h
  cases hidx : rowCols.findIdx? (fun x => x = c) with
  | none => rw [hidx] at h; cases h
  | some j =>
    rw [hidx] at h
    exact ⟨j, rfl, (Except.ok.inj h).symm⟩

theorem lookupVal_of_findIdx {cols : List String} {row : List Value} {c : String} {i : Nat}
    (h : cols.findIdx? (fun x => x = c) = some i) :
    lookupVal cols row c = some (row.getD i vnull) := by
  unfold lookupVal
  rw [h]
  rfl

theorem specRowHit_nil_src (excl : List Value) (fc1 fc2 : List String) (tcs : List String)
    (r t : List Value) : specRowHit excl fc1 fc2 [] tcs r t = true := rfl

theorem specRowHit_cons (excl : List Value) (fc1 fc2 : List String) (sc : String)
    (scs : List String) (tc : String) (tcs : List String) (r t : List Value) :
    specRowHit excl fc1 fc2 (sc :: scs) (tc :: tcs) r t =
      ((match lookupVal fc1 r sc, lookupVal fc2 t tc with
        | some rv, some tv => specColHit excl rv tv
        | _, _ => false) && specRowHit excl fc1 fc2 scs tcs r t) := by
  simp [specRowHit, List.all_cons]

theorem maskLoop_char (excl : List Value) (target : DataFrame) (rowCols : List String)
    (row : List Value) :
    ∀ (scs tcs : List String) (mask mask' : List Bool),
      maskLoop excl target rowCols row scs tcs mask = Except.ok mask' →
      mask.length = target.rows.length →
      mask' = mask.zipWith and (target.rows.map (fun t =>
        specRowHit excl rowCols target.cols scs tcs row t)) := by
  intro scs
  induction scs with
  | nil =>
    intro tcs mask mask' h hlen
    simp only [maskLoop] at h
    cases h
    rw [show (fun t => specRowHit excl rowCols target.cols [] tcs row t) =
      (fun _ => true) from rfl]
    rw [zipWith_and_map_true mask target.rows (by rw [hlen])]
  | cons sc scs' ih =>
    intro tcs mask mask' h hlen
    simp only [maskLoop] at h
    cases tcs with
    | nil =>
      rw [pyIndex_nil, except_bind_err] at h
      cases h
    | cons tc tcs' =>
      rw [pyIndex_cons_zero, except_bind_ok] at h
      cases hcol : target.getColumn tc with
      | error e => rw [hcol, except_bind_err] at h; cases h
      | ok col =>
        rw [hcol, except_bind_ok] at h
        cases hrv : DataFrame.rowGet rowCols row sc with
        | error e => rw [hrv, except_bind_err] at h; cases h
        | ok rv =>
          rw [hrv, except_bind_ok] at h
          simp only [List.drop_one, List.tail_cons] at h
          obtain ⟨i, hidx, hcoleq⟩ := getColumn_ok hcol
          obtain ⟨j, hjdx, hrveq⟩ := rowGet_ok hrv
          have hcondlen : (mask.zipWith and
              (col.map (fun tv => (pyEq tv rv && ! pyMem rv excl) ||
                (isna tv && isna rv)))).length = target.rows.length := by
            rw [List.length_zipWith, List.length_map, hcoleq, List.length_map, hlen]
            exact Nat.min_self _
          have hrec := ih tcs' _ mask' h hcondlen
          rw [hrec, zipWith_and_assoc]
          congr 1
          rw [hcoleq, List.map_map, zipWith_and_map_map]
          apply List.map_congr_left
          intro t _
          rw [specRowHit_cons, lookupVal_of_findIdx hjdx, lookupVal_of_findIdx hidx]
          rw [← hrveq]
          rfl

theorem list_any_map {α β : Type} (l : List α) (f : α → β) (p : β → Bool) :
    (l.map f).any p = l.any (fun x => p (f x)) := by
  induction l with
  | nil => rfl
  | cons x xs ih => simp [ih]

theorem is_row_in_char (excl : List Value) (target : DataFrame) (rowCols : List String)
    (row : List Value) (srcCols tgtCols : List String) (lg : List MatchEvent) (b : Bool)
    (h : is_row_in_dataframe excl target rowCols row srcCols tgtCols = (lg, Except.ok b)) :
    b = target.rows.any (fun t =>
      specRowHit excl rowCols target.cols srcCols tgtCols row t) := by
  unfold is_row_in_dataframe at h
  cases hm : maskLoop excl target rowCols row srcCols tgtCols
      (List.replicate target.rows.length true) with
  | error e =>
    rw [hm] at h
    have h2 := congrArg Prod.snd h
    simp only [EW.emit, EW.throw, EW.bind] at h2
    cases h2
  | ok mask =>
    rw [hm] at h
    have h2 := congrArg Prod.snd h
    simp only [EW.emit, EW.bind, EW.pure] at h2
    have hb : decide (0 < (mask.filter id).length) = b := by
      have := Except.ok.inj h2
      exact this
    have hmask := maskLoop_char excl target rowCols row srcCols tgtCols _ mask hm
      (List.length_replicate _ _)
    rw [← hb, hmask, replicate_zipWith_and, any_id_filter, list_any_map]
    simp

theorem ewMapM_ok_each {α β : Type} {f : α → EW β} :
    ∀ {l : List α} {lg : List MatchEvent} {bs : List β},
      ewMapM f l = (lg, Except.ok bs) →
      (∀ a ∈ l, ∃ lw b, f a = (lw, Except.ok b)) ∧ bs.length = l.length := by
  intro l
  induction l with
  | nil =>
    intro lg bs h
    simp only [ewMapM, EW.pure] at h
    cases h
    exact ⟨fun a ha => absurd ha (List.not_mem_nil a), rfl⟩
  | cons a t ih =>
    intro lg bs h
    simp only [ewMapM] at h
    rw [EW.monad_bind] at h
    obtain ⟨l1, b, l2, hfa, hrest, _⟩ := EW.bind_eq_ok h
    rw [EW.monad_bind] at hrest
    obtain ⟨l3, bs', l4, hmap, hpure, _⟩ := EW.bind_eq_ok hrest
    have hbs : bs = b :: bs' := by
      have := congrArg Prod.snd hpure
      simp only [EW.monad_pure, EW.pure] at this
      exact (Except.ok.inj this).symm
    have hloop : ewMapM f t = (l3, Except.ok bs') := hmap
    obtain ⟨hall, hlen⟩ := ih hloop
    refine ⟨?_, ?_⟩
    · intro x hx
      rcases List.mem_cons.mp hx with rfl | hxt
      · exact ⟨l1, b, hfa⟩
      · exact hall x hxt
    · rw [hbs]
      simp [hlen]

theorem ewMapM_ok_map {α β : Type} {f : α → EW β} {g : α → β} :
    ∀ {l : List α} {lg : List MatchEvent} {bs : List β},
      ewMapM f l = (lg, Except.ok bs) →
      (∀ a ∈ l, (f a).2 = Except.ok (g a)) →
      bs = l.map g := by
  intro l
  induction l with
  | nil =>
    intro lg bs h _
    simp only [ewMapM, EW.pure] at h
    cases h
    rfl
  | cons a t ih =>
    intro lg bs h hg
    simp only [ewMapM] at h
    rw [EW.monad_bind] at h
    obtain ⟨l1, b, l2, hfa, hrest, _⟩ := EW.bind_eq_ok h
    rw [EW.monad_bind] at hrest
    obtain ⟨l3, bs', l4, hmap, hpure, _⟩ := EW.bind_eq_ok hrest
    have hbs : bs = b :: bs' := by
      have := congrArg Prod.snd hpure
      simp only [EW.monad_pure, EW.pure] at this
      exact (Except.ok.inj this).symm
    have hb : b = g a := by
      have := hg a (List.mem_cons_self a t)
      rw [hfa] at this
      exact Except.ok.inj this
    rw [hbs, hb, List.map_cons]
    rw [ih hmap (fun x hx => hg x (List.mem_cons_of_mem a hx))]


theorem findIdx?_some_prop {l : List String} {p : String → Bool} {i : Nat}
    (h : l.findIdx? p = some i) :
    i < l.length ∧ ∃ x, l.get? i = some x ∧ p x = true := by
  obtain ⟨hlt, hfi⟩ := List.findIdx?_eq_some_iff_findIdx_eq.mp h
  refine ⟨hlt, l.get ⟨i, hlt⟩, ?_, ?_⟩
  · simp [List.get?_eq_getElem?, List.getElem?_eq_getElem hlt]
  · subst hfi
    simpa using List.findIdx_getElem (w := hlt)

theorem findIdx?_append_singleton_ne (l : List String) (c name : String) (hc : ¬ c = name) :
    (l ++ [name]).findIdx? (fun x => x = c) = l.findIdx? (fun x => x = c) := by
  induction l with
  | nil =>
    have hnc : ¬ name = c := fun h => hc h.symm
    simp [List.findIdx?_cons, hnc]
  | cons a t ih =>
    by_cases ha : a = c
    · simp [List.findIdx?_cons, ha]
    · simp only [List.cons_append, List.findIdx?_cons, ha, decide_eq_true_eq, if_neg,
        not_false_eq_true]
      rw [List.findIdx?_succ, List.findIdx?_succ, ih]

theorem lookupVal_set_ne (cols : List String) (r : List Value) (k : Nat) (f : Value)
    (c name : String) (hc : c ≠ name) (hk : cols.findIdx? (fun x => x = name) = some k) :
    lookupVal cols (r.set k f) c = lookupVal cols r c := by
  unfold lookupVal
  cases hci : cols.findIdx? (fun x => x = c) with
  | none => rfl
  | some i =>
    simp only [Option.map_some']
    congr 1
    obtain ⟨hilt, x, hxi, hxc⟩ := findIdx?_some_prop hci
    obtain ⟨hklt, y, hyk, hyn⟩ := findIdx?_some_prop hk
    simp only [decide_eq_true_eq] at hxc hyn
    have hik : k ≠ i := by
      intro he
      subst he
      rw [hxi] at hyk
      cases hyk
      exact hc (hxc ▸ hyn ▸ rfl)
    rw [List.getD_eq_getElem?_getD, List.getD_eq_getElem?_getD,
      List.getElem?_set_ne hik]

theorem lookupVal_append_ne (cols : List String) (r : List Value) (f : Value)
    (c name : String) (hc : ¬ c = name) (hWF : r.length = cols.length) :
    lookupVal (cols ++ [name]) (r ++ [f]) c = lookupVal cols r c := by
  unfold lookupVal
  rw [findIdx?_append_singleton_ne cols c name hc]
  cases hci : cols.findIdx? (fun x => x = c) with
  | none => rfl
  | some i =>
    simp only [Option.map_some']
    congr 1
    obtain ⟨hilt, _, _, _⟩ := findIdx?_some_prop hci
    rw [List.getD_eq_getElem?_getD, List.getD_eq_getElem?_getD,
      List.getElem?_append_left (by rw [hWF]; exact hilt)]

theorem specRowHit_congr_tgt (excl : List Value) (fc1 : List String)
    (fcA fcB : List String) (r tA tB : List Value) :
    ∀ (scs tcs : List String),
      (∀ tc ∈ tcs, lookupVal fcA tA tc = lookupVal fcB tB tc) →
      specRowHit excl fc1 fcA scs tcs r tA = specRowHit excl fc1 fcB scs tcs r tB := by
  intro scs
  induction scs with
  | nil => intro tcs _; rfl
  | cons sc scs' ih =>
    intro tcs h
    cases tcs with
    | nil => rfl
    | cons tc tcs' =>
      rw [specRowHit_cons, specRowHit_cons,
        h tc (List.mem_cons_self tc tcs'),
        ih tcs' (fun x hx => h x (List.mem_cons_of_mem tc hx))]

theorem any_zip_map {α β γ : Type} (l1 : List α) (P : γ → Bool) (Q : α → Bool)
    (g : α × β → γ) :
    ∀ l2 : List β, l1.length = l2.length →
      (∀ p ∈ l1.zip l2, P (g p) = Q p.1) →
      ((l1.zip l2).map g).any P = l1.any Q := by
  induction l1 with
  | nil => intro l2 _ _; rfl
  | cons a t ih =>
    intro l2 hlen hp
    cases l2 with
    | nil => cases hlen
    | cons b t2 =>
      simp only [List.zip_cons_cons, List.map_cons, List.any_cons]
      rw [hp (a, b) (by simp [List.zip_cons_cons]),
        ih t2 (by simpa using hlen)
          (fun p hp2 => hp p (by simp [List.zip_cons_cons, hp2]))]


theorem identify_ok_inv {df1 df2 : DataFrame} {cols1 cols2 : List String} {nm : String}
    {ex : Option (List Value)} {lg : List MatchEvent} {r1 r2 : DataFrame}
    (h : identify_match_multi_cols df1 df2 cols1 cols2 nm ex = (lg, Except.ok (r1, r2))) :
    ∃ lg1 flags1 lg2 flags2,
      ewMapM (fun r => is_row_in_dataframe (ex.getD defaultExcludeValues) df2 df1.cols r
        cols1 cols2) df1.rows = (lg1, Except.ok flags1) ∧
      r1 = df1.setCol (nm ++ "_df1?") (flags1.map vbool) ∧
      ewMapM (fun t => is_row_in_dataframe (ex.getD defaultExcludeValues)
        (df1.setCol (nm ++ "_df1?") (flags1.map vbool)) df2.cols t cols2 cols1)
        df2.rows = (lg2, Except.ok flags2) ∧
      r2 = df2.setCol (nm ++ "_df2?") (flags2.map vbool) := by
  simp only [identify_match_multi_cols, EW.monad_bind] at h
  obtain ⟨l1, flags1, l2, hmap1, hrest1, _⟩ := EW.bind_eq_ok h
  obtain ⟨l3, flags2, l4, hmap2, hpure, _⟩ := EW.bind_eq_ok hrest1
  have hpair : (df1.setCol (nm ++ "_df1?") (flags1.map vbool),
      df2.setCol (nm ++ "_df2?") (flags2.map vbool)) = (r1, r2) := by
    have := congrArg Prod.snd hpure
    simp only [EW.monad_pure, EW.pure] at this
    exact Except.ok.inj this
  have h1 : r1 = df1.setCol (nm ++ "_df1?") (flags1.map vbool) :=
    (congrArg Prod.fst hpair).symm
  have h2 : r2 = df2.setCol (nm ++ "_df2?") (flags2.map vbool) :=
    (congrArg Prod.snd hpair).symm
  exact ⟨l1, flags1, l3, flags2, hmap1, h1, hmap2, h2⟩

/-- C2 confirmed: `identify_match_multi_cols` with the default excluded
values marks a row of either dataframe as matched exactly when some row of
the other dataframe satisfies, at every key position, the condition
"(target value equals row value AND the row value is not an excluded value)
OR (both values are null)" — `specRowHit`, written from the claim's words,
with the excluded-value veto built in: an excluded value (by default
`'None'`, `'none'`, `'nan'`, `''`) never contributes to a match even when
literally equal on both sides.  The hypotheses require well-formed rows in
the first frame and that the generated flag column name is not itself a key
column (the second scan runs against the already-annotated first frame). -/
theorem identify_match_multi_cols_spec (df1 df2 : DataFrame) (cols1 cols2 : List String)
    (nm : String) (lg : List MatchEvent) (r1 r2 : DataFrame)
    (hWF1 : ∀ r ∈ df1.rows, r.length = df1.cols.length)
    (hflag1 : (nm ++ "_df1?") ∉ cols1)
    (hok : identify_match_multi_cols df1 df2 cols1 cols2 nm none = (lg, Except.ok (r1, r2))) :
    r1 = df1.setCol (nm ++ "_df1?")
        ((df1.rows.map (fun r => df2.rows.any (fun t =>
          specRowHit defaultExcludeValues df1.cols df2.cols cols1 cols2 r t))).map vbool) ∧
      r2 = df2.setCol (nm ++ "_df2?")
        ((df2.rows.map (fun t => df1.rows.any (fun r =>
          specRowHit defaultExcludeValues df2.cols df1.cols cols2 cols1 t r))).map vbool) := by
  obtain ⟨lg1, flags1, lg2, flags2, hmap1, hr1, hmap2, hr2⟩ := identify_ok_inv hok
  have hall1 := (ewMapM_ok_each hmap1).1
  have hlen1 : flags1.length = df1.rows.length := (ewMapM_ok_each hmap1).2
  have hflags1 : flags1 = df1.rows.map (fun r => df2.rows.any (fun t =>
      specRowHit defaultExcludeValues df1.cols df2.cols cols1 cols2 r t)) := by
    apply ewMapM_ok_map hmap1
    intro r hr
    obtain ⟨lw, b, hb⟩ := hall1 r hr
    rw [hb]
    have := is_row_in_char _ _ _ _ _ _ _ _ hb
    rw [this]
    rfl
  have hall2 := (ewMapM_ok_each hmap2).1
  have hflags2 : flags2 = df2.rows.map (fun t =>
      (df1.setCol (nm ++ "_df1?") (flags1.map vbool)).rows.any (fun trow =>
        specRowHit defaultExcludeValues df2.cols
          (df1.setCol (nm ++ "_df1?") (flags1.map vbool)).cols cols2 cols1 t trow)) := by
    apply ewMapM_ok_map hmap2
    intro t ht
    obtain ⟨lw, b, hb⟩ := hall2 t ht
    rw [hb]
    have := is_row_in_char _ _ _ _ _ _ _ _ hb
    rw [this]
    rfl
  have hany : ∀ t : List Value,
      (df1.setCol (nm ++ "_df1?") (flags1.map vbool)).rows.any (fun trow =>
        specRowHit defaultExcludeValues df2.cols
          (df1.setCol (nm ++ "_df1?") (flags1.map vbool)).cols cols2 cols1 t trow) =
      df1.rows.any (fun r =>
        specRowHit defaultExcludeValues df2.cols df1.cols cols2 cols1 t r) := by
    intro t
    have hlenz : df1.rows.length = (flags1.map vbool).length := by
      rw [List.length_map, hlen1]
    unfold DataFrame.setCol
    cases hknm : df1.cols.findIdx? (fun x => x = nm ++ "_df1?") with
    | some k =>
      simp only
      apply any_zip_map df1.rows _ _ _ (flags1.map vbool) hlenz
      intro p hp
      apply specRowHit_congr_tgt
      intro tc htc
      have htcn : tc ≠ nm ++ "_df1?" := fun hc => hflag1 (hc ▸ htc)
      exact lookupVal_set_ne df1.cols p.1 k p.2 tc (nm ++ "_df1?") htcn hknm
    | none =>
      simp only
      apply any_zip_map df1.rows _ _ _ (flags1.map vbool) hlenz
      intro p hp
      apply specRowHit_congr_tgt
      intro tc htc
      have htcn : ¬ tc = nm ++ "_df1?" := fun hc => hflag1 (hc ▸ htc)
      exact lookupVal_append_ne df1.cols p.1 p.2 tc (nm ++ "_df1?") htcn
        (hWF1 p.1 (List.of_mem_zip hp).1)
  refine ⟨by rw [hr1, hflags1], ?_⟩
  rw [hr2, hflags2]
  congr 1
  congr 1
  apply List.map_congr_left
  intro t _
  exact hany t


/-- Witness for C2 at the repository's own unit-test input (three rows per
side, two matching). -/
theorem identify_match_multi_cols_spec_witness :
    ⟨["A", "B", "match_df1?"],
        [[vint 1, vstr "one", vbool true], [vint 2, vstr "two", vbool false],
          [vint 3, vstr "three", vbool true]]⟩ =
      (⟨["A", "B"], [[vint 1, vstr "one"], [vint 2, vstr "two"],
          [vint 3, vstr "three"]]⟩ : DataFrame).setCol ("match" ++ "_df1?")
        (((⟨["A", "B"], [[vint 1, vstr "one"], [vint 2, vstr "two"],
            [vint 3, vstr "three"]]⟩ : DataFrame).rows.map
          (fun r => (⟨["C", "D"], [[vint 1, vstr "one"], [vint 4, vstr "four"],
            [vint 3, vstr "three"]]⟩ : DataFrame).rows.any (fun t =>
            specRowHit defaultExcludeValues ["A", "B"] ["C", "D"] ["A", "B"] ["C", "D"]
              r t))).map vbool) ∧
      ⟨["C", "D", "match_df2?"],
        [[vint 1, vstr "one", vbool true], [vint 4, vstr "four", vbool false],
          [vint 3, vstr "three", vbool true]]⟩ =
      (⟨["C", "D"], [[vint 1, vstr "one"], [vint 4, vstr "four"],
          [vint 3, vstr "three"]]⟩ : DataFrame).setCol ("match" ++ "_df2?")
        (((⟨["C", "D"], [[vint 1, vstr "one"], [vint 4, vstr "four"],
            [vint 3, vstr "three"]]⟩ : DataFrame).rows.map
          (fun t => (⟨["A", "B"], [[vint 1, vstr "one"], [vint 2, vstr "two"],
            [vint 3, vstr "three"]]⟩ : DataFrame).rows.any (fun r =>
            specRowHit defaultExcludeValues ["C", "D"] ["A", "B"] ["C", "D"] ["A", "B"]
              t r))).map vbool) :=
  identify_match_multi_cols_spec
    ⟨["A", "B"], [[vint 1, vstr "one"], [vint 2, vstr "two"], [vint 3, vstr "three"]]⟩
    ⟨["C", "D"], [[vint 1, vstr "one"], [vint 4, vstr "four"], [vint 3, vstr "three"]]⟩
    ["A", "B"] ["C", "D"] "match"
    [MatchEvent.rowScan, MatchEvent.rowScan, MatchEvent.rowScan, MatchEvent.rowScan,
      MatchEvent.rowScan, MatchEvent.rowScan]
    ⟨["A", "B", "match_df1?"],
      [[vint 1, vstr "one", vbool true], [vint 2, vstr "two", vbool false],
        [vint 3, vstr "three", vbool true]]⟩
    ⟨["C", "D", "match_df2?"],
      [[vint 1, vstr "one", vbool true], [vint 4, vstr "four", vbool false],
        [vint 3, vstr "three", vbool true]]⟩
    (by decide) (by decide) (by decide)


theorem setCol_name_mem (df : DataFrame) (c : String) (vals : List Value) :
    c ∈ (df.setCol c vals).cols := by
  unfold DataFrame.setCol
  cases h : df.cols.findIdx? (fun x => x = c) with
  | some i =>
    simp only
    obtain ⟨_, x, hx, hxc⟩ := findIdx?_some_prop h
    simp only [decide_eq_true_eq] at hxc
    exact hxc ▸ List.get?_mem hx
  | none => simp

/-- C8 amended: `match_ads` leaves the caller's two dataframe objects
unchanged (its first statements rebind the locals to `drop` copies and
nothing later writes through the caller's references), but
`identify_match_multi_cols` annotates the caller's dataframes in place: on a
successful call the caller's objects are the returned frames and now carry
the two new flag columns. -/
theorem matching_calls_caller_state (df1 df2 : DataFrame) (c1 c2 : List String)
    (nm : String) (ex : Option (List Value)) (lg : List MatchEvent) (r1 r2 : DataFrame)
    (h : identify_match_multi_cols df1 df2 c1 c2 nm ex = (lg, Except.ok (r1, r2))) :
    match_ads_caller_state df1 df2 = (df1, df2) ∧
      identify_caller_state df1 df2 c1 c2 nm ex = (lg, Except.ok (r1, r2)) ∧
      (nm ++ "_df1?") ∈ r1.cols ∧ (nm ++ "_df2?") ∈ r2.cols := by
  obtain ⟨lg1, f1, lg2, f2, _, hr1, _, hr2⟩ := identify_ok_inv h
  exact ⟨rfl, h, hr1 ▸ setCol_name_mem _ _ _, hr2 ▸ setCol_name_mem _ _ _⟩

/-- Witness for the C8 amended theorem at a concrete input. -/
theorem matching_calls_caller_state_witness :
    match_ads_caller_state ⟨["A"], [[vstr "x"]]⟩ ⟨["A"], [[vstr "x"]]⟩ =
        (⟨["A"], [[vstr "x"]]⟩, ⟨["A"], [[vstr "x"]]⟩) ∧
      identify_caller_state ⟨["A"], [[vstr "x"]]⟩ ⟨["A"], [[vstr "x"]]⟩ ["A"] ["A"]
          "match" none =
        ([MatchEvent.rowScan, MatchEvent.rowScan],
          Except.ok (⟨["A", "match_df1?"], [[vstr "x", vbool true]]⟩,
            ⟨["A", "match_df2?"], [[vstr "x", vbool true]]⟩)) ∧
      ("match" ++ "_df1?") ∈ (⟨["A", "match_df1?"],
        [[vstr "x", vbool true]]⟩ : DataFrame).cols ∧
      ("match" ++ "_df2?") ∈ (⟨["A", "match_df2?"],
        [[vstr "x", vbool true]]⟩ : DataFrame).cols :=
  matching_calls_caller_state ⟨["A"], [[vstr "x"]]⟩ ⟨["A"], [[vstr "x"]]⟩ ["A"] ["A"]
    "match" none [MatchEvent.rowScan, MatchEvent.rowScan]
    ⟨["A", "match_df1?"], [[vstr "x", vbool true]]⟩
    ⟨["A", "match_df2?"], [[vstr "x", vbool true]]⟩ (by decide)


theorem map_snd_zip_of_le {α β : Type} : ∀ (l2 : List β) (l1 : List α),
    l2.length ≤ l1.length → (l1.zip l2).map Prod.snd = l2 := by
  intro l2
  induction l2 with
  | nil => intro l1 _; simp
  | cons b t ih =>
    intro l1 h
    cases l1 with
    | nil => simp at h
    | cons a s =>
      simp only [List.zip_cons_cons, List.map_cons]
      rw [ih s (by simpa using h)]

theorem filter_zip_length_le (p : String → Bool) :
    ∀ (cols : List String) (r : List Value),
      ((cols.zip r).filter (fun cv => ! p cv.1)).length ≤
        (cols.filter (fun c => ! p c)).length := by
  intro cols
  induction cols with
  | nil => intro r; simp
  | cons c ct ih =>
    intro r
    cases r with
    | nil => simp
    | cons v rt =>
      simp only [List.zip_cons_cons, List.filter_cons]
      cases hpc : ! p c with
      | true => simpa using ih rt
      | false => simpa using Nat.le_trans (ih rt) (Nat.le_refl _)

theorem dropColsWhere_idem (p : String → Bool) (df : DataFrame) :
    (df.dropColsWhere p).dropColsWhere p = df.dropColsWhere p := by
  unfold DataFrame.dropColsWhere
  simp only [DataFrame.mk.injEq]
  constructor
  · rw [List.filter_eq_self]
    intro a ha
    exact (List.mem_filter.mp ha).2
  · simp only [List.map_map]
    apply List.map_congr_left
    intro r _
    simp only [Function.comp]
    have hall : ∀ cv ∈ (df.cols.filter (fun c => ! p c)).zip
        (((df.cols.zip r).filter (fun cv => ! p cv.1)).map Prod.snd),
        (! p cv.1) = true := by
      intro cv hcv
      have h1 := (List.of_mem_zip hcv).1
      exact (List.mem_filter.mp h1).2
    rw [List.filter_eq_self.mpr hall]
    exact map_snd_zip_of_le _ _ (by
      rw [List.length_map]
      exact filter_zip_length_le p df.cols r)

theorem match_ads_drop_independent (ratio : String → String → Nat)
    (df_1 df_2 : DataFrame) (e1 e2 : String) (f1 f2 : Option String) (link : Bool)
    (mcol : String) (ctm : Option (List String)) (pname : String) (store : Store) :
    match_ads ratio df_1 df_2 e1 e2 f1 f2 link mcol ctm pname store =
      match_ads ratio (df_1.dropColsWhere isMatchedDfCol)
        (df_2.dropColsWhere isMatchedDfCol) e1 e2 f1 f2 link mcol ctm pname store := by
  simp only [match_ads, dropColsWhere_idem]


theorem liftE_ok {α : Type} {x : Except String α} {l : List MatchEvent} {a : α}
    (h : liftE x = (l, Except.ok a)) : x = Except.ok a := by
  have h2 := congrArg Prod.snd h
  simpa [liftE] using h2

theorem setCol_cols_mem {df : DataFrame} {c : String} {vals : List Value} {n : String}
    (h : n ∈ (df.setCol c vals).cols) : n ∈ df.cols ∨ n = c := by
  unfold DataFrame.setCol at h
  cases hi : df.cols.findIdx? (fun x => x = c) with
  | some i => rw [hi] at h; exact Or.inl h
  | none =>
    rw [hi] at h
    simp only at h
    rcases List.mem_append.mp h with h1 | h2
    · exact Or.inl h1
    · right
      simpa using h2

theorem filterByFlag_ok_cols {df : DataFrame} {nm : String} {b : Bool} {df' : DataFrame}
    (h : df.filterByFlag nm b = Except.ok df') : df'.cols = df.cols := by
  unfold DataFrame.filterByFlag at h
  cases hc : df.getColumn nm with
  | error e => rw [hc, except_bind_err] at h; cases h
  | ok col =>
    rw [hc, except_bind_ok] at h
    have := (Except.ok.inj h).symm
    rw [this]

theorem concatSameCols_ok_cols {a b c : DataFrame} (h : concatSameCols a b = Except.ok c) :
    c.cols = a.cols := by
  unfold concatSameCols at h
  split at h
  · have := (Except.ok.inj h).symm
    rw [this]
  · cases h

theorem setMatchedCol_ok {df : DataFrame} {nm x y : String} {df' : DataFrame}
    (h : setMatchedCol df nm x y = Except.ok df') :
    ∃ flags, df' = df.setCol nm flags := by
  unfold setMatchedCol at h
  cases hm : df.rows.mapM (rowMatchedFlag df.cols x y) with
  | error e => rw [hm, except_bind_err] at h; cases h
  | ok flags =>
    rw [hm, except_bind_ok] at h
    exact ⟨flags, (Except.ok.inj h).symm⟩

theorem match_ads_ok_cols (ratio : String → String → Nat) (df_1 df_2 : DataFrame)
    (e1 e2 : String) (f1 f2 : Option String) (link : Bool) (mcol : String)
    (ctm : Option (List String)) (pname : String) (store : Store) (lg : List MatchEvent)
    (out1 out2 : DataFrame) (diag : Diagnostics) (st' : Store)
    (h : match_ads ratio df_1 df_2 e1 e2 f1 f2 link mcol ctm pname store =
      (lg, Except.ok (out1, out2, diag, st'))) :
    (∀ n ∈ out1.cols, n ∈ (df_1.dropColsWhere isMatchedDfCol).cols ∨ n = "match_string" ∨
      n = "matched_exact_df1?" ∨ n = mcol ∨ n = "matched_fuzzy_df1?") ∧
    (∀ n ∈ out2.cols, n ∈ (df_2.dropColsWhere isMatchedDfCol).cols ∨ n = "match_string" ∨
      n = "matched_exact_df2?" ∨ n = "matched_fuzzy_df2?" ∨ n = mcol) := by
  simp only [match_ads, EW.monad_bind] at h
  obtain ⟨u1, ce1, v1, h1, h, _⟩ := EW.bind_eq_ok h
  obtain ⟨u2, ce2, v2, h2, h, _⟩ := EW.bind_eq_ok h
  obtain ⟨u3, ⟨ra, rb⟩, v3, h3, h, _⟩ := EW.bind_eq_ok h
  obtain ⟨u4, df1m, v4, h4, h, _⟩ := EW.bind_eq_ok h
  obtain ⟨u5, cf1, v5, h5, h, _⟩ := EW.bind_eq_ok h
  obtain ⟨u6, cf2, v6, h6, h, _⟩ := EW.bind_eq_ok h
  obtain ⟨u7, d1nm, v7, h7, h, _⟩ := EW.bind_eq_ok h
  obtain ⟨u8, nmu, v8, h8, h, _⟩ := EW.bind_eq_ok h
  obtain ⟨u9, fzu, v9, h9, h, _⟩ := EW.bind_eq_ok h
  obtain ⟨u10, bm, v10, h10, h, _⟩ := EW.bind_eq_ok h
  obtain ⟨u11, nm2, v11, h11, h, _⟩ := EW.bind_eq_ok h
  obtain ⟨u12, ⟨sa, sb⟩, v12, h12, h, _⟩ := EW.bind_eq_ok h
  obtain ⟨u13, d1cat, v13, h13, h, _⟩ := EW.bind_eq_ok h
  obtain ⟨u14, d1fin, v14, h14, h, _⟩ := EW.bind_eq_ok h
  obtain ⟨u15, d2fin, v15, h15, h, _⟩ := EW.bind_eq_ok h
  obtain ⟨u16, dg, v16, h16, h, _⟩ := EW.bind_eq_ok h
  have hq : (d1fin, d2fin, dg,
      (bm.2 : Store)) = (out1, out2, diag, st') := by
    have := congrArg Prod.snd h
    simp only [EW.monad_pure, EW.pure] at this
    exact Except.ok.inj this
  have hout1 : out1 = d1fin := (congrArg Prod.fst hq).symm
  have hout2 : out2 = d2fin := (congrArg (fun q => q.2.1) hq).symm
  obtain ⟨lgA, flA, lgB, flB, _, hra, _, hrb⟩ := identify_ok_inv h3
  obtain ⟨lgC, flC, lgD, flD, _, hsa, _, hsb⟩ := identify_ok_inv h12
  obtain ⟨flagsA, hd1fin⟩ := setMatchedCol_ok (liftE_ok h14)
  obtain ⟨flagsB, hd2fin⟩ := setMatchedCol_ok (liftE_ok h15)
  have hcat : d1cat.cols = df1m.cols := concatSameCols_ok_cols (liftE_ok h13)
  have hfil := filterByFlag_ok_cols (liftE_ok h4)
  have hex1 : ("matched_exact" ++ "_df1?" : String) = "matched_exact_df1?" := rfl
  have hex2 : ("matched_exact" ++ "_df2?" : String) = "matched_exact_df2?" := rfl
  have hfz1 : ("matched_fuzzy" ++ "_df1?" : String) = "matched_fuzzy_df1?" := rfl
  have hfz2 : ("matched_fuzzy" ++ "_df2?" : String) = "matched_fuzzy_df2?" := rfl
  constructor
  · intro n hn
    rw [hout1, hd1fin] at hn
    rcases setCol_cols_mem hn with hn | hn
    swap
    · exact Or.inr (Or.inr (Or.inr (Or.inl hn)))
    rw [hcat, hfil] at hn
    rcases setCol_cols_mem hn with hn | hn
    swap
    · exact Or.inr (Or.inr (Or.inr (Or.inr hn)))
    rcases setCol_cols_mem hn with hn | hn
    swap
    · exact Or.inr (Or.inr (Or.inr (Or.inl hn)))
    rw [hra] at hn
    rcases setCol_cols_mem hn with hn | hn
    swap
    · exact Or.inr (Or.inr (Or.inl (hex1 ▸ hn)))
    rcases setCol_cols_mem hn with hn | hn
    · exact Or.inl hn
    · exact Or.inr (Or.inl hn)
  · intro n hn
    rw [hout2, hd2fin] at hn
    rcases setCol_cols_mem hn with hn | hn
    swap
    · exact Or.inr (Or.inr (Or.inr (Or.inr hn)))
    rw [hsb] at hn
    rcases setCol_cols_mem hn with hn | hn
    swap
    · exact Or.inr (Or.inr (Or.inr (Or.inl (hfz2 ▸ hn))))
    rcases setCol_cols_mem hn with hn | hn
    swap
    · exact Or.inr (Or.inl hn)
    rw [hrb] at hn
    rcases setCol_cols_mem hn with hn | hn
    swap
    · exact Or.inr (Or.inr (Or.inl (hex2 ▸ hn)))
    rcases setCol_cols_mem hn with hn | hn
    · exact Or.inl hn
    · exact Or.inr (Or.inl hn)


/-- C10 amended: before matching begins, `match_ads` removes from both input
datasets every pre-existing column whose name contains both `'matched'` and
`'df'` — the run is identical to one whose inputs never carried such columns
— and on a successful run any column of the returned datasets with such a
name is one of the annotation columns the run itself creates
(`matched_exact_df1?`/`matched_fuzzy_df1?`/`matched_exact_df2?`/
`matched_fuzzy_df2?` or the caller-chosen matched column name); every other
caller-supplied column with such a name is absent from the output. -/
theorem match_ads_stale_matched_df_cols (ratio : String → String → Nat)
    (df_1 df_2 : DataFrame) (e1 e2 : String) (f1 f2 : Option String) (link : Bool)
    (mcol : String) (ctm : Option (List String)) (pname : String) (store : Store) :
    match_ads ratio df_1 df_2 e1 e2 f1 f2 link mcol ctm pname store =
      match_ads ratio (df_1.dropColsWhere isMatchedDfCol)
        (df_2.dropColsWhere isMatchedDfCol) e1 e2 f1 f2 link mcol ctm pname store ∧
    ∀ lg out1 out2 diag st',
      match_ads ratio df_1 df_2 e1 e2 f1 f2 link mcol ctm pname store =
        (lg, Except.ok (out1, out2, diag, st')) →
      (∀ n ∈ out1.cols, isMatchedDfCol n = true →
        n = "matched_exact_df1?" ∨ n = mcol ∨ n = "matched_fuzzy_df1?") ∧
      (∀ n ∈ out2.cols, isMatchedDfCol n = true →
        n = "matched_exact_df2?" ∨ n = "matched_fuzzy_df2?" ∨ n = mcol) := by
  refine ⟨match_ads_drop_independent ratio df_1 df_2 e1 e2 f1 f2 link mcol ctm pname store,
    ?_⟩
  intro lg out1 out2 diag st' h
  obtain ⟨hc1, hc2⟩ := match_ads_ok_cols ratio df_1 df_2 e1 e2 f1 f2 link mcol ctm pname
    store lg out1 out2 diag st' h
  constructor
  · intro n hn hmd
    rcases hc1 n hn with hn' | hn' | hn' | hn' | hn'
    · rw [(dropColsWhere_cols_subset _ _ _ hn').2] at hmd
      cases hmd
    · rw [hn'] at hmd
      exact absurd hmd (by decide)
    · exact Or.inl hn'
    · exact Or.inr (Or.inl hn')
    · exact Or.inr (Or.inr hn')
  · intro n hn hmd
    rcases hc2 n hn with hn' | hn' | hn' | hn' | hn'
    · rw [(dropColsWhere_cols_subset _ _ _ hn').2] at hmd
      cases hmd
    · rw [hn'] at hmd
      exact absurd hmd (by decide)
    · exact Or.inl hn'
    · exact Or.inr (Or.inl hn')
    · exact Or.inr (Or.inr hn')

/-- Witness for the C10 amended theorem at a concrete input, with the inner
implication discharged at a concrete successful run. -/
theorem match_ads_stale_matched_df_cols_witness :
    (match_ads ratioZero ⟨["platform", "cap"], [[vstr "fb", vstr "hello"]]⟩
        ⟨["platform", "cap"], [[vstr "fb", vstr "hello"]]⟩ "cap" "cap" none none true
        "boosted" none "NoStore" [] =
      match_ads ratioZero
        ((⟨["platform", "cap"], [[vstr "fb", vstr "hello"]]⟩ : DataFrame).dropColsWhere
          isMatchedDfCol)
        ((⟨["platform", "cap"], [[vstr "fb", vstr "hello"]]⟩ : DataFrame).dropColsWhere
          isMatchedDfCol) "cap" "cap" none none true "boosted" none "NoStore" []) ∧
    ((∀ n ∈ (⟨["platform", "cap", "match_string", "matched_exact_df1?", "boosted",
          "matched_fuzzy_df1?"],
        [[vstr "fb", vstr "hello", vstr "hello", vbool true, vbool true,
          vbool false]]⟩ : DataFrame).cols, isMatchedDfCol n = true →
        n = "matched_exact_df1?" ∨ n = "boosted" ∨ n = "matched_fuzzy_df1?") ∧
      (∀ n ∈ (⟨["platform", "cap", "match_string", "matched_exact_df2?",
          "matched_fuzzy_df2?", "boosted"],
        [[vstr "fb", vstr "hello", vstr "hello", vbool true, vbool false,
          vbool true]]⟩ : DataFrame).cols, isMatchedDfCol n = true →
        n = "matched_exact_df2?" ∨ n = "matched_fuzzy_df2?" ∨ n = "boosted")) :=
  ⟨(match_ads_stale_matched_df_cols ratioZero
      ⟨["platform", "cap"], [[vstr "fb", vstr "hello"]]⟩
      ⟨["platform", "cap"], [[vstr "fb", vstr "hello"]]⟩ "cap" "cap" none none true
      "boosted" none "NoStore" []).1,
    (match_ads_stale_matched_df_cols ratioZero
      ⟨["platform", "cap"], [[vstr "fb", vstr "hello"]]⟩
      ⟨["platform", "cap"], [[vstr "fb", vstr "hello"]]⟩ "cap" "cap" none none true
      "boosted" none "NoStore" []).2
      [MatchEvent.rowScan, MatchEvent.rowScan, MatchEvent.rowScan]
      ⟨["platform", "cap", "match_string", "matched_exact_df1?", "boosted",
          "matched_fuzzy_df1?"],
        [[vstr "fb", vstr "hello", vstr "hello", vbool true, vbool true, vbool false]]⟩
      ⟨["platform", "cap", "match_string", "matched_exact_df2?", "matched_fuzzy_df2?",
          "boosted"],
        [[vstr "fb", vstr "hello", vstr "hello", vbool true, vbool false, vbool true]]⟩
      ⟨1, 1, 1, 1, some (100, 1), some (0, 1), some (100, 1), some (0, 1), some (100, 1), some (100, 1)⟩ []
      (by decide)⟩


end Veetility
